import Mathlib

/-! Top-of-block auction lane: `blockbuster/lanes/auction/abci.go`.

A shallow embedding of `TOBLane.PrepareLane`, `TOBLane.ProcessLane`,
`TOBLane.ProcessLaneBasic`, `TOBLane.VerifyTx` and `TOBLane.verifyTx`, followed
by the properties established about them.

Conventions of the embedding

* `sdk.Tx` and `sdk.Context` are type parameters `Tx` and `State`.  A value of
  `State` stands for the contents of the store a context gives access to; code
  that mutates the store in place becomes explicit state passing.
* A Go `error` returned by a collaborator is its message, a `String`.
* A Go `map[K]struct{}` is a `Finset K`.
* `int64` sizes are `Int`; a slice length never overflows `int64`.
* A run-time panic is an explicit outcome, `Except Panic _`.
-/

namespace Auction

/-- A byte string, Go's `[]byte`. -/
abbrev Bytes := List UInt8

/-- Run-time panics the Go code of this file can raise. -/
inductive Panic where
  /-- A field of a nil `*BidInfo` is read. -/
  | nilPointerDereference
  /-- An element of a slice is read at an index that is not below its length. -/
  | indexOutOfRange
  /-- A slice expression has a bound beyond the capacity. -/
  | sliceBoundsOutOfRange
  deriving DecidableEq, Repr

deriving instance DecidableEq for Except

/-- The record `GetAuctionBidInfo` extracts from a bid transaction; the only
field this file reads is `Transactions`, the ordered bundle of raw
transaction bytes. -/
structure BidInfo where
  Transactions : List Bytes
  deriving DecidableEq, Repr

/-- The errors built by `fmt.Errorf` in `VerifyTx`, one constructor for each
format string; the argument is the wrapped error of a `%w` verb. -/
inductive VerifyError where
  /-- Line 227: "failed to get auction bid info: %w". -/
  | failedToGetAuctionBidInfo (err : String)
  /-- Line 233: "invalid bid tx; failed to execute ante handler: %w". -/
  | failedToExecuteAnteHandler (err : String)
  /-- Line 240: "invalid bid tx; failed to decode bundled tx: %w". -/
  | failedToDecodeBundledTx (err : String)
  /-- Line 246: "invalid bid tx; bundled tx cannot be a bid tx". -/
  | bundledTxCannotBeBidTx
  /-- Line 250: "invalid bid tx; failed to execute bundled transaction: %w". -/
  | failedToExecuteBundledTransaction (err : String)
  deriving DecidableEq, Repr

/-- Modelled from the spec: the `blockbuster.Proposal` type is declared outside
this file.  The spec's PartialProposal is "an ordered sequence of encoded
transaction byte strings, a running byte-size total, a size ceiling, and a set
of transaction fingerprints already included". -/
structure Proposal where
  Txs : List Bytes
  Cache : Finset String
  TotalTxBytes : Int
  MaxTxBytes : Int
  deriving DecidableEq

/-- The collaborators a `TOBLane` reaches through `l`: the codec and ante
handler of `l.Cfg`, the auction factory (`GetAuctionBidInfo`,
`WrapBundleTransaction`), the bid predicate `Match`, the mempool (`Select`,
removal) and the fingerprint function of `utils.GetTxHashStr`.  The logger
and the lane's name, which only reach log lines and error messages, are left
out. -/
structure TOBLane (Tx State : Type) where
  /-- The encoder `l.Cfg.TxEncoder`. -/
  TxEncoder : Tx → Except String Bytes
  /-- The decoder `l.Cfg.TxDecoder`. -/
  TxDecoder : Bytes → Except String Tx
  /-- The handler `l.Cfg.AnteHandler`, which may be nil.  The result holds the context the
  handler returns and its error, nil being `none`. -/
  AnteHandler : Option (State → Tx → Bool → State × Option String)
  /-- The method `l.GetAuctionBidInfo`: the returned `*BidInfo` (nil is `none`) and the
  returned error (nil is `none`).  The callers test the two independently. -/
  GetAuctionBidInfo : Tx → Option BidInfo × Option String
  /-- The method `l.WrapBundleTransaction`. -/
  WrapBundleTransaction : Bytes → Except String Tx
  /-- The method `l.Match`, the bid predicate of the lane. -/
  Match : Tx → Bool
  /-- The call `l.Select(ctx, nil)`: the candidates the iterator yields, in its order. -/
  Select : State → List Tx
  /-- The call `utils.RemoveTxsFromLane(txsToRemove, l.Mempool)`: the error it returns,
  nil being `none`. -/
  RemoveTxsFromLane : Finset Tx → Option String
  /-- The hex string of the SHA-256 digest, the fingerprint taken by
  `utils.GetTxHashStr` and by `Proposal.UpdateProposal`. -/
  sha256Hex : Bytes → String

variable {Tx State : Type}

/-- Modelled from the spec: `utils.GetTxHashStr` is defined outside this file.
It encodes the transaction and returns the bytes together with their
fingerprint, "a unique identifier (hash) used to detect a transaction already
present in a proposal"; an encoding failure is returned as the error. -/
def GetTxHashStr (l : TOBLane Tx State) (tx : Tx) : Except String (Bytes × String) :=
  match l.TxEncoder tx with
  | .error err => .error err
  | .ok txBz => .ok (txBz, l.sha256Hex txBz)

/-- Modelled from the spec: `Proposal.UpdateProposal` is defined outside this
file.  It appends the transactions to the proposal, adds `totalSize` to the
running byte-size total and records the fingerprint of every appended
transaction in the included set. -/
def Proposal.UpdateProposal (sha256Hex : Bytes → String) (p : Proposal)
    (txs : List Bytes) (totalSize : Int) : Proposal :=
  { p with
    Txs := p.Txs ++ txs
    Cache := p.Cache ∪ (txs.map sha256Hex).toFinset
    TotalTxBytes := p.TotalTxBytes + totalSize }

/-- Modelled from the spec: `ctx.CacheContext()` belongs to the SDK.  It
returns "an isolated, copy-on-write view of chain state" and the function
`write` that merges the view back.  The view starts as a copy of the live
state; `write`, applied to the contents the view has reached, gives the live
state after the merge. -/
def CacheContext (ctx : State) : State × (State → State) :=
  (ctx, fun cacheCtx => cacheCtx)

/-- The method `TOBLane.verifyTx` (lines 259-266): run the ante handler when there is
one, else return the context unchanged with a nil error. -/
def verifyTx (l : TOBLane Tx State) (ctx : State) (tx : Tx) : State × Option String :=
  match l.AnteHandler with
  | some anteHandler => anteHandler ctx tx false
  | none => (ctx, none)

/-- The loop of `TOBLane.VerifyTx` over `bidInfo.Transactions` (lines
237-252).  The result is the context reached and the error returned, `none`
when the loop runs to its end. -/
def verifyBundle (l : TOBLane Tx State) : State → List Bytes → State × Option VerifyError
  | ctx, [] => (ctx, none)
  | ctx, tx :: rest =>
    match l.WrapBundleTransaction tx with
    | .error err => (ctx, some (.failedToDecodeBundledTx err))
    | .ok bundledTx =>
      match (l.GetAuctionBidInfo bundledTx).1 with
      | some _ => (ctx, some .bundledTxCannotBeBidTx)
      | none =>
        match verifyTx l ctx bundledTx with
        | (ctx', some err) => (ctx', some (.failedToExecuteBundledTransaction err))
        | (ctx', none) => verifyBundle l ctx' rest

/-- The method `TOBLane.VerifyTx` (lines 224-255).  The result is the contents of the
store of `ctx` when the function returns, and the returned error.  Reading
`bidInfo.Transactions` of a nil `bidInfo` (line 237) panics. -/
def VerifyTx (l : TOBLane Tx State) (ctx : State) (bidTx : Tx) :
    Except Panic (State × Option VerifyError) :=
  match l.GetAuctionBidInfo bidTx with
  | (_, some err) => .ok (ctx, some (.failedToGetAuctionBidInfo err))
  | (bidInfo, none) =>
    match verifyTx l ctx bidTx with
    | (ctx', some err) => .ok (ctx', some (.failedToExecuteAnteHandler err))
    | (ctx', none) =>
      match bidInfo with
      | none => .error .nilPointerDereference
      | some bidInfo => .ok (verifyBundle l ctx' bidInfo.Transactions)

/-- The inner loop of `PrepareLane` over `bidInfo.Transactions` (lines
66-88), which fills `bundledTxBz`. -/
inductive BundleBytes where
  /-- Every entry was wrapped and encoded: `bundledTxBz`. -/
  | bytes (bundledTxBz : List Bytes)
  /-- Lines 69-72 and 75-78: the bid is put in `txsToRemove`, then
  `continue selectBidTxLoop`. -/
  | remove
  /-- Lines 81-83: `continue selectBidTxLoop`, nothing is put in
  `txsToRemove`. -/
  | skip
  deriving DecidableEq, Repr

/-- Lines 66-88 of `PrepareLane`. -/
def bundleBytes (l : TOBLane Tx State) (proposal : Proposal) : List Bytes → BundleBytes
  | [] => .bytes []
  | rawRefTx :: rest =>
    match l.WrapBundleTransaction rawRefTx with
    | .error _ => .remove
    | .ok sdkTx =>
      match GetTxHashStr l sdkTx with
      | .error _ => .remove
      | .ok (sdkTxBz, hash) =>
        if hash ∈ proposal.Cache then .skip
        else
          match bundleBytes l proposal rest with
          | .bytes bundledTxBz => .bytes (sdkTxBz :: bundledTxBz)
          | .remove => .remove
          | .skip => .skip

/-- The variables of `PrepareLane` when `selectBidTxLoop` is left (line 113),
and the live state at that point. -/
structure Selection (Tx State : Type) where
  txs : List Bytes
  totalSize : Int
  txsToRemove : Finset Tx
  ctx : State
  deriving DecidableEq

/-- The loop `selectBidTxLoop` of `PrepareLane` (lines 32-111) over the
candidates the iterator still has to yield; `ctx` is the live state and
`txsToRemove` the candidates marked so far.  `txs` and `totalSize` keep their
zero values until a candidate is selected, and the loop is left right after. -/
def selectBidTxLoop [DecidableEq Tx] (l : TOBLane Tx State) (ctx : State)
    (proposal : Proposal) (maxTxBytes : Int) :
    List Tx → Finset Tx → Except Panic (Selection Tx State)
  | [], txsToRemove => .ok ⟨[], 0, txsToRemove, ctx⟩
  | tmpBidTx :: rest, txsToRemove =>
    let (cacheCtx, write) := CacheContext ctx
    match GetTxHashStr l tmpBidTx with
    | .error _ =>
      selectBidTxLoop l ctx proposal maxTxBytes rest (insert tmpBidTx txsToRemove)
    | .ok (bidTxBz, txHash) =>
      if txHash ∈ proposal.Cache then
        selectBidTxLoop l ctx proposal maxTxBytes rest txsToRemove
      else
        let bidTxSize : Int := bidTxBz.length
        if bidTxSize ≤ maxTxBytes then
          match VerifyTx l cacheCtx tmpBidTx with
          | .error p => .error p
          | .ok (_, some _) =>
            selectBidTxLoop l ctx proposal maxTxBytes rest (insert tmpBidTx txsToRemove)
          | .ok (cacheCtx', none) =>
            match l.GetAuctionBidInfo tmpBidTx with
            | (some bidInfo, none) =>
              match bundleBytes l proposal bidInfo.Transactions with
              | .remove =>
                selectBidTxLoop l ctx proposal maxTxBytes rest (insert tmpBidTx txsToRemove)
              | .skip =>
                selectBidTxLoop l ctx proposal maxTxBytes rest txsToRemove
              | .bytes bundledTxBz =>
                .ok ⟨[] ++ [bidTxBz] ++ bundledTxBz, bidTxSize, txsToRemove, write cacheCtx'⟩
            | _ =>
              selectBidTxLoop l ctx proposal maxTxBytes rest (insert tmpBidTx txsToRemove)
        else
          selectBidTxLoop l ctx proposal maxTxBytes rest (insert tmpBidTx txsToRemove)

/-- What a run of `PrepareLane` leaves behind. -/
structure PrepareOutcome (Tx State : Type) where
  /-- The returned proposal. -/
  ret : Proposal
  /-- The live state when `PrepareLane` returns or calls `next`. -/
  ctx : State
  /-- The set handed to `utils.RemoveTxsFromLane`. -/
  txsToRemove : Finset Tx
  /-- The arguments of every call of `next`, in order. -/
  nextCalls : List (State × Proposal)
  deriving DecidableEq

/-- The method `TOBLane.PrepareLane` (lines 15-123): leave the loop, request
the removal of the marked candidates and, unless that fails, update the
proposal and call `next`. -/
def PrepareLane [DecidableEq Tx] (l : TOBLane Tx State) (ctx : State)
    (proposal : Proposal) (maxTxBytes : Int) (next : State → Proposal → Proposal) :
    Except Panic (PrepareOutcome Tx State) :=
  match selectBidTxLoop l ctx proposal maxTxBytes (l.Select ctx) ∅ with
  | .error p => .error p
  | .ok s =>
    match l.RemoveTxsFromLane s.txsToRemove with
    | some _ => .ok ⟨proposal, s.ctx, s.txsToRemove, []⟩
    | none =>
      let proposal' := proposal.UpdateProposal l.sha256Hex s.txs s.totalSize
      .ok ⟨next s.ctx proposal', s.ctx, s.txsToRemove, [(s.ctx, proposal')]⟩

/-- The errors `ProcessLane` and `ProcessLaneBasic` return, one constructor
for each format string of `fmt.Errorf`; the lane's name, the `%s` of every
message, is left out, and the argument is the wrapped error of a `%w` verb or
the numbers of the `%d` verbs. -/
inductive LaneError where
  /-- Lines 130, 157, 165 and 210: "failed to decode tx in lane %s: %w". -/
  | failedToDecodeTx (err : String)
  /-- Lines 139 and 178: "failed to get bid info for lane %s: %w". -/
  | failedToGetBidInfo (err : String)
  /-- Line 143: "invalid bid tx: %w", wrapping the error of `VerifyTx`. -/
  | invalidBidTx (err : VerifyError)
  /-- Line 169: "misplaced bid transactions in lane %s". -/
  | misplacedBidTransactions
  /-- Line 182: "invalid number of transactions in lane %s; expected at least
  %d, got %d". -/
  | invalidNumberOfTransactions (expected got : Nat)
  /-- Line 189: "failed to decode bundled tx in lane %s: %w". -/
  | failedToDecodeBundledTx (err : String)
  /-- Lines 193 and 214: "multiple bid transactions in lane %s". -/
  | multipleBidTransactions
  /-- Line 198: "failed to encode bundled tx in lane %s: %w". -/
  | failedToEncodeBundledTx (err : String)
  /-- Line 202: "invalid order of transactions in lane %s". -/
  | invalidOrderOfTransactions
  /-- Lines 134 and 146: the error `next` returned, passed on as it is. -/
  | fromNext (err : String)
  deriving DecidableEq, Repr

/-- What a run of `ProcessLane` leaves behind. -/
structure ProcessOutcome (State : Type) where
  /-- The returned context: the contents of its store. -/
  ctx : State
  /-- The returned error, nil being `none`. -/
  err : Option LaneError
  /-- The arguments of every call of `next`, in order. -/
  nextCalls : List (State × List Bytes)
  deriving DecidableEq

/-- The statement `return next(ctx, txs)` of `ProcessLane` (lines 134 and
146): `next` is called and what it returns is returned. -/
def returnNext (next : State → List Bytes → State × Option String) (ctx : State)
    (txs : List Bytes) : ProcessOutcome State :=
  ⟨(next ctx txs).1, (next ctx txs).2.map LaneError.fromNext, [(ctx, txs)]⟩

/-- The method `TOBLane.ProcessLane` (lines 127-147).  Reading
`proposalTxs[0]` of an empty list panics, as does reading
`bidInfo.Transactions` of a nil `bidInfo` and slicing `proposalTxs` from an
index beyond its length (line 146).  `VerifyTx` runs on the live context, so
the context handed to `next` holds the store as `VerifyTx` left it. -/
def ProcessLane (l : TOBLane Tx State) (ctx : State) (proposalTxs : List Bytes)
    (next : State → List Bytes → State × Option String) :
    Except Panic (ProcessOutcome State) :=
  match proposalTxs[0]? with
  | none => .error .indexOutOfRange
  | some first =>
    match l.TxDecoder first with
    | .error err => .ok ⟨ctx, some (.failedToDecodeTx err), []⟩
    | .ok tx =>
      if !l.Match tx then
        .ok (returnNext next ctx proposalTxs)
      else
        match l.GetAuctionBidInfo tx with
        | (_, some err) => .ok ⟨ctx, some (.failedToGetBidInfo err), []⟩
        | (bidInfo, none) =>
          match VerifyTx l ctx tx with
          | .error p => .error p
          | .ok (ctx', some err) => .ok ⟨ctx', some (.invalidBidTx err), []⟩
          | .ok (ctx', none) =>
            match bidInfo with
            | none => .error .nilPointerDereference
            | some bidInfo =>
              if bidInfo.Transactions.length + 1 ≤ proposalTxs.length then
                .ok (returnNext next ctx' (proposalTxs.drop (bidInfo.Transactions.length + 1)))
              else
                .error .sliceBoundsOutOfRange

/-- The loop of `ProcessLaneBasic` over `txs[1:]` when the first transaction
is not a bid (lines 162-171). -/
def misplacedBidLoop (l : TOBLane Tx State) : List Bytes → Option LaneError
  | [] => none
  | txBz :: rest =>
    match l.TxDecoder txBz with
    | .error err => some (.failedToDecodeTx err)
    | .ok tx =>
      if l.Match tx then some .misplacedBidTransactions
      else misplacedBidLoop l rest

/-- The loop of `ProcessLaneBasic` over `txs[1 : len(bidInfo.Transactions)+1]`
(lines 186-204).  The first list is what is left of the slice, the second
what is left of `bidInfo.Transactions` from the index `i` on; reading
`bidInfo.Transactions[i]` beyond its length panics. -/
def bundleOrderLoop (l : TOBLane Tx State) :
    List Bytes → List Bytes → Except Panic (Option LaneError)
  | [], _ => .ok none
  | bundleTxBz :: rest, transactions =>
    match l.WrapBundleTransaction bundleTxBz with
    | .error err => .ok (some (.failedToDecodeBundledTx err))
    | .ok tx =>
      if l.Match tx then .ok (some .multipleBidTransactions)
      else
        match l.TxEncoder tx with
        | .error err => .ok (some (.failedToEncodeBundledTx err))
        | .ok txBz =>
          match transactions with
          | [] => .error .indexOutOfRange
          | transaction :: transactions' =>
            if txBz = transaction then bundleOrderLoop l rest transactions'
            else .ok (some .invalidOrderOfTransactions)

/-- The loop of `ProcessLaneBasic` over `txs[len(bidInfo.Transactions)+1:]`
(lines 207-216). -/
def moreBidsLoop (l : TOBLane Tx State) : List Bytes → Option LaneError
  | [] => none
  | txBz :: rest =>
    match l.TxDecoder txBz with
    | .error err => some (.failedToDecodeTx err)
    | .ok tx =>
      if l.Match tx then some .multipleBidTransactions
      else moreBidsLoop l rest

/-- The method `TOBLane.ProcessLaneBasic` (lines 154-219): the returned error,
nil being `none`.  Reading `txs[0]` of an empty list panics, as does reading
`bidInfo.Transactions` of a nil `bidInfo` (line 181). -/
def ProcessLaneBasic (l : TOBLane Tx State) (txs : List Bytes) :
    Except Panic (Option LaneError) :=
  match txs[0]? with
  | none => .error .indexOutOfRange
  | some first =>
    match l.TxDecoder first with
    | .error err => .ok (some (.failedToDecodeTx err))
    | .ok tx =>
      if !l.Match tx then
        .ok (misplacedBidLoop l (txs.drop 1))
      else
        match l.GetAuctionBidInfo tx with
        | (_, some err) => .ok (some (.failedToGetBidInfo err))
        | (none, none) => .error .nilPointerDereference
        | (some bidInfo, none) =>
          if txs.length < bidInfo.Transactions.length + 1 then
            .ok (some (.invalidNumberOfTransactions (bidInfo.Transactions.length + 1)
              txs.length))
          else
            match bundleOrderLoop l ((txs.take (bidInfo.Transactions.length + 1)).drop 1)
                bidInfo.Transactions with
            | .error p => .error p
            | .ok (some err) => .ok (some err)
            | .ok none => .ok (moreBidsLoop l (txs.drop (bidInfo.Transactions.length + 1)))

/-! ## Properties as the specification words them

Definitions used to state the properties; they follow the wording of the
specification and are compared with the embedding above. -/

/-- A bundle entry `raw` wraps into a transaction that encodes to `bz`, and the
fingerprint of `bz` is not in the proposal's included set. -/
def EntryBytes (l : TOBLane Tx State) (proposal : Proposal) (raw bz : Bytes) : Prop :=
  ∃ sdkTx, l.WrapBundleTransaction raw = .ok sdkTx ∧ l.TxEncoder sdkTx = .ok bz ∧
    l.sha256Hex bz ∉ proposal.Cache

/-- A bundle entry `raw` cannot be wrapped, or the wrapped transaction cannot
be encoded. -/
def EntryFails (l : TOBLane Tx State) (raw : Bytes) : Prop :=
  (∃ err, l.WrapBundleTransaction raw = .error err) ∨
  ∃ sdkTx err, l.WrapBundleTransaction raw = .ok sdkTx ∧ l.TxEncoder sdkTx = .error err

/-- A bundle entry `raw` wraps and encodes to bytes whose fingerprint is
already in the proposal's included set. -/
def EntryCollides (l : TOBLane Tx State) (proposal : Proposal) (raw : Bytes) : Prop :=
  ∃ sdkTx bz, l.WrapBundleTransaction raw = .ok sdkTx ∧ l.TxEncoder sdkTx = .ok bz ∧
    l.sha256Hex bz ∈ proposal.Cache

/-- The three conditions the specification puts on the selected candidate: it
encodes, its encoded size is at most `maxTxBytes`, and `VerifyTx` returns no
error on a snapshot of the live state `ctx`. -/
def Qualifies (l : TOBLane Tx State) (ctx : State) (maxTxBytes : Int) (tx : Tx) : Prop :=
  ∃ bidTxBz ctx', l.TxEncoder tx = .ok bidTxBz ∧ (bidTxBz.length : Int) ≤ maxTxBytes ∧
    VerifyTx l ctx tx = .ok (ctx', none)

/-- The conditions under which the loop selects a candidate, with the list
`txs` it selects and the snapshot `ctx'` it merges: the candidate encodes, its
fingerprint is not in the included set, its encoded size is at most
`maxTxBytes`, `VerifyTx` returns no error and reaches `ctx'`, and every bundle
entry wraps and encodes to bytes whose fingerprint is not in the included
set. -/
def Selectable (l : TOBLane Tx State) (ctx : State) (proposal : Proposal) (maxTxBytes : Int)
    (tx : Tx) (txs : List Bytes) (ctx' : State) : Prop :=
  ∃ bidTxBz bidInfo bundledTxBz,
    l.TxEncoder tx = .ok bidTxBz ∧ l.sha256Hex bidTxBz ∉ proposal.Cache ∧
    (bidTxBz.length : Int) ≤ maxTxBytes ∧
    VerifyTx l ctx tx = .ok (ctx', none) ∧
    l.GetAuctionBidInfo tx = (some bidInfo, none) ∧
    List.Forall₂ (EntryBytes l proposal) bidInfo.Transactions bundledTxBz ∧
    txs = bidTxBz :: bundledTxBz

/-- The specification's selection rule on the candidates `cands`: when the
loop is left, the first candidate in order that qualifies is the one whose
bytes head the selected list. -/
def SelectsFirstQualifying [DecidableEq Tx] (l : TOBLane Tx State) (ctx : State)
    (proposal : Proposal) (maxTxBytes : Int) (cands : List Tx) : Prop :=
  ∀ s, selectBidTxLoop l ctx proposal maxTxBytes cands ∅ = .ok s →
    ∀ pre t post, cands = pre ++ t :: post →
      (∀ u ∈ pre, ¬ Qualifies l ctx maxTxBytes u) → Qualifies l ctx maxTxBytes t →
      ∃ bidTxBz, l.TxEncoder t = .ok bidTxBz ∧ s.txs.head? = some bidTxBz

/-- The candidate `tx` is marked for removal and the loop advances to the next
candidate: the run on `tx :: rest` is the run on `rest` with `tx` marked. -/
def MarksAndAdvances [DecidableEq Tx] (l : TOBLane Tx State) (ctx : State)
    (proposal : Proposal) (maxTxBytes : Int) (tx : Tx) : Prop :=
  ∀ rest txsToRemove,
    selectBidTxLoop l ctx proposal maxTxBytes (tx :: rest) txsToRemove
      = selectBidTxLoop l ctx proposal maxTxBytes rest (insert tx txsToRemove)

/-- The sum of the byte lengths of a list of transactions. -/
def totalBytes (txs : List Bytes) : Int :=
  ((txs.map List.length).sum : Nat)

/-- The bundle `bundle` passes from snapshot `ctx` to snapshot `ctx'`: every
entry, in order, decodes, the decoded transaction carries no bid information,
and its precondition check succeeds on the snapshot returned by the check
before it. -/
inductive BundlePasses (l : TOBLane Tx State) : State → List Bytes → State → Prop where
  | nil (ctx : State) : BundlePasses l ctx [] ctx
  | cons {ctx ctx' ctx'' : State} {raw : Bytes} {rest : List Bytes} {tx : Tx}
      (hwrap : l.WrapBundleTransaction raw = .ok tx)
      (hbid : (l.GetAuctionBidInfo tx).1 = none)
      (hante : verifyTx l ctx tx = (ctx', none))
      (hrest : BundlePasses l ctx' rest ctx'') :
      BundlePasses l ctx (raw :: rest) ctx''

/-- The bundle member `raw` violates a condition on snapshot `ctx`: it does not
decode, or it decodes to a transaction with bid information, or its
precondition check fails.  `ctx'` is the snapshot the violation leaves and
`e` the error it is reported with. -/
def MemberFails (l : TOBLane Tx State) (ctx : State) (raw : Bytes) (ctx' : State)
    (e : VerifyError) : Prop :=
  (∃ err, l.WrapBundleTransaction raw = .error err ∧ ctx' = ctx ∧
      e = .failedToDecodeBundledTx err) ∨
  (∃ tx, l.WrapBundleTransaction raw = .ok tx ∧ (l.GetAuctionBidInfo tx).1 ≠ none ∧
      ctx' = ctx ∧ e = .bundledTxCannotBeBidTx) ∨
  (∃ tx err, l.WrapBundleTransaction raw = .ok tx ∧ (l.GetAuctionBidInfo tx).1 = none ∧
      verifyTx l ctx tx = (ctx', some err) ∧ e = .failedToExecuteBundledTransaction err)

/-- The specification's rule for `ProcessLane` on the list `txs`: when the
first entry decodes to a bid transaction with bid information and `VerifyTx`
returns no error, `next` is called exactly once, with the suffix of `txs` that
starts after the bid and its bundle, and what `next` returns is returned. -/
def ConsumesBidAndBundle (l : TOBLane Tx State) (ctx : State) (txs : List Bytes)
    (next : State → List Bytes → State × Option String) : Prop :=
  ∀ first tx bidInfo c, txs[0]? = some first → l.TxDecoder first = .ok tx →
    l.Match tx = true → l.GetAuctionBidInfo tx = (some bidInfo, none) →
    VerifyTx l ctx tx = .ok (c, none) →
    ∃ o, ProcessLane l ctx txs next = .ok o ∧
      o.nextCalls = [(c, txs.drop (bidInfo.Transactions.length + 1))] ∧
      o.ctx = (next c (txs.drop (bidInfo.Transactions.length + 1))).1 ∧
      o.err = (next c (txs.drop (bidInfo.Transactions.length + 1))).2.map LaneError.fromNext

/-- The specification's rule for a bid that is not first: when the first entry
of `txs` decodes to a transaction that is not a bid and some later position
holds an entry that decodes to a bid, `ProcessLaneBasic` returns the
misplaced-bid error. -/
def RejectsMisplacedBid (l : TOBLane Tx State) (txs : List Bytes) : Prop :=
  ∀ first tx i bz bidTx, txs[0]? = some first → l.TxDecoder first = .ok tx →
    l.Match tx = false → 1 ≤ i → txs[i]? = some bz → l.TxDecoder bz = .ok bidTx →
    l.Match bidTx = true →
    ProcessLaneBasic l txs = .ok (some .misplacedBidTransactions)

/-- The entry `bz` of the bundle region agrees with the stored bundle entry
`transaction`: it wraps into a transaction that does not match the bid
predicate and that encodes to exactly `transaction`. -/
def RegionEntryMatches (l : TOBLane Tx State) (bz transaction : Bytes) : Prop :=
  ∃ tx, l.WrapBundleTransaction bz = .ok tx ∧ l.Match tx = false ∧
    l.TxEncoder tx = .ok transaction

/-- The entry `bz` of the bundle region fails a check of lines 187-203 against
the stored bundle entry `transaction`, with the error `e`. -/
def RegionEntryFails (l : TOBLane Tx State) (bz transaction : Bytes) (e : LaneError) : Prop :=
  (∃ err, l.WrapBundleTransaction bz = .error err ∧ e = .failedToDecodeBundledTx err) ∨
  (∃ tx, l.WrapBundleTransaction bz = .ok tx ∧ l.Match tx = true ∧
      e = .multipleBidTransactions) ∨
  (∃ tx err, l.WrapBundleTransaction bz = .ok tx ∧ l.Match tx = false ∧
      l.TxEncoder tx = .error err ∧ e = .failedToEncodeBundledTx err) ∨
  (∃ tx txBz, l.WrapBundleTransaction bz = .ok tx ∧ l.Match tx = false ∧
      l.TxEncoder tx = .ok txBz ∧ txBz ≠ transaction ∧ e = .invalidOrderOfTransactions)

/-- The conditions the specification puts on a list `txs` whose first entry is
a bid with the stored bundle `b`: the list has at least `1 + n` entries, each
position `i` in `1..n` decodes to a transaction that is not a bid and whose
encoding is byte for byte `b[i-1]`, and every entry beyond position `n`
decodes to a transaction that does not match the bid predicate. -/
def StructurallyValid (l : TOBLane Tx State) (txs : List Bytes) (b : List Bytes) : Prop :=
  b.length + 1 ≤ txs.length ∧
  (∀ i, 1 ≤ i → i ≤ b.length →
    ∃ bz transaction, txs[i]? = some bz ∧ b[i - 1]? = some transaction ∧
      RegionEntryMatches l bz transaction) ∧
  (∀ i bz, b.length < i → txs[i]? = some bz →
    ∃ tx, l.TxDecoder bz = .ok tx ∧ l.Match tx = false)

/-- The specification's round trip on the candidates `cands`: when the loop
is left with the bytes of a candidate at the head of the selection, the bytes
that follow are, entry by entry and in order, the bundle entries stored in
that candidate's bid. -/
def BundleRoundTrips [DecidableEq Tx] (l : TOBLane Tx State) (ctx : State)
    (proposal : Proposal) (maxTxBytes : Int) (cands : List Tx) : Prop :=
  ∀ s, selectBidTxLoop l ctx proposal maxTxBytes cands ∅ = .ok s →
    ∀ t ∈ cands, ∀ bidTxBz bidInfo, l.TxEncoder t = .ok bidTxBz →
      s.txs.head? = some bidTxBz → l.GetAuctionBidInfo t = (some bidInfo, none) →
      s.txs.tail = bidInfo.Transactions

/-! ## A concrete lane

A small codec, ante handler and fingerprint on which the definitions above
can be evaluated. -/

/-- Transactions of the concrete lane. -/
inductive DemoTx where
  /-- An ordinary transaction, encoded as the two bytes `1, n`. -/
  | plain (n : UInt8)
  /-- A bid transaction with its bundle, encoded as `0, bidder` followed by
  the bundle entries. -/
  | bid (bidder : UInt8) (bundle : List Bytes)
  /-- A transaction the encoder refuses. -/
  | opaqueTx
  deriving DecidableEq, Repr

/-- Cut a payload into entries of two bytes. -/
def demoChunks : Bytes → List Bytes
  | a :: b :: rest => [a, b] :: demoChunks rest
  | _ => []

/-- Encoder of the concrete lane. -/
def demoEncode : DemoTx → Except String Bytes
  | .plain n => .ok [1, n]
  | .bid bidder bundle => .ok (0 :: bidder :: bundle.flatten)
  | .opaqueTx => .error "cannot encode"

/-- Decoder of the concrete lane. -/
def demoDecode : Bytes → Except String DemoTx
  | [1, n] => .ok (.plain n)
  | 0 :: bidder :: payload => .ok (.bid bidder (demoChunks payload))
  | _ => .error "cannot decode"

/-- Ante handler of the concrete lane; the state counts what was charged.  A
bid is refused once the state has reached 100, the plain transaction 0 is
always refused. -/
def demoAnte (ctx : Nat) (tx : DemoTx) (_simulate : Bool) : Nat × Option String :=
  match tx with
  | .plain n => if n = 0 then (ctx + 1, some "ante: refused") else (ctx + n.toNat, none)
  | .bid _ _ => if 100 ≤ ctx then (ctx, some "ante: sequence") else (ctx + 100, none)
  | .opaqueTx => (ctx, none)

/-- Bid information of the concrete lane. -/
def demoBidInfo : DemoTx → Option BidInfo × Option String
  | .plain _ => (none, none)
  | .bid _ bundle => (some ⟨bundle⟩, none)
  | .opaqueTx => (none, some "not a message")

/-- Fingerprint of the concrete lane: one character for each byte. -/
def demoHash (bz : Bytes) : String :=
  String.mk (bz.map fun b => Char.ofNat (b.toNat + 48))

/-- The concrete lane over the candidates `cands`; its mempool answers the
removal of a non-empty set with `removeErr`, and the removal of nothing with
no error. -/
def demoLane (cands : List DemoTx) (removeErr : Option String) : TOBLane DemoTx Nat where
  TxEncoder := demoEncode
  TxDecoder := demoDecode
  AnteHandler := some demoAnte
  GetAuctionBidInfo := demoBidInfo
  WrapBundleTransaction := demoDecode
  Match := fun tx => (demoBidInfo tx).1.isSome && (demoBidInfo tx).2.isNone
  Select := fun _ => cands
  RemoveTxsFromLane := fun txsToRemove => if txsToRemove = ∅ then none else removeErr
  sha256Hex := demoHash

/-- An empty proposal with ceiling `maxTxBytes`. -/
def emptyProposal (maxTxBytes : Int) : Proposal := ⟨[], ∅, 0, maxTxBytes⟩

/-- A decoder that also accepts the two bytes `2, n` for the ordinary
transaction `n`, which the encoder writes as `1, n`. -/
def aliasDecode : Bytes → Except String DemoTx
  | [2, n] => .ok (.plain n)
  | bz => demoDecode bz

/-- The concrete lane with the decoder `aliasDecode` for bundle entries. -/
def aliasLane (cands : List DemoTx) : TOBLane DemoTx Nat :=
  { demoLane cands none with WrapBundleTransaction := aliasDecode }

/-- A continuation of `ProcessLane` that accepts whatever it is given. -/
def acceptNext (ctx : Nat) (_txs : List Bytes) : Nat × Option String := (ctx, none)

/-! ## The loop of `PrepareLane`, one candidate at a time -/

section Loop

variable [DecidableEq Tx] (l : TOBLane Tx State) (ctx : State) (proposal : Proposal)
  (maxTxBytes : Int)

theorem selectBidTxLoop_encode_error {tx : Tx} {err : String}
    (henc : l.TxEncoder tx = .error err) (rest : List Tx) (rm : Finset Tx) :
    selectBidTxLoop l ctx proposal maxTxBytes (tx :: rest) rm
      = selectBidTxLoop l ctx proposal maxTxBytes rest (insert tx rm) := by
  simp [selectBidTxLoop, GetTxHashStr, henc]

theorem selectBidTxLoop_cached {tx : Tx} {bz : Bytes}
    (henc : l.TxEncoder tx = .ok bz) (hc : l.sha256Hex bz ∈ proposal.Cache)
    (rest : List Tx) (rm : Finset Tx) :
    selectBidTxLoop l ctx proposal maxTxBytes (tx :: rest) rm
      = selectBidTxLoop l ctx proposal maxTxBytes rest rm := by
  simp [selectBidTxLoop, GetTxHashStr, henc, hc]

theorem selectBidTxLoop_too_large {tx : Tx} {bz : Bytes}
    (henc : l.TxEncoder tx = .ok bz) (hc : l.sha256Hex bz ∉ proposal.Cache)
    (hsz : maxTxBytes < (bz.length : Int))
    (rest : List Tx) (rm : Finset Tx) :
    selectBidTxLoop l ctx proposal maxTxBytes (tx :: rest) rm
      = selectBidTxLoop l ctx proposal maxTxBytes rest (insert tx rm) := by
  simp [selectBidTxLoop, GetTxHashStr, henc, hc, not_le.mpr hsz]

theorem selectBidTxLoop_verify_error {tx : Tx} {bz : Bytes} {c : State} {e : VerifyError}
    (henc : l.TxEncoder tx = .ok bz) (hc : l.sha256Hex bz ∉ proposal.Cache)
    (hsz : (bz.length : Int) ≤ maxTxBytes)
    (hv : VerifyTx l ctx tx = .ok (c, some e))
    (rest : List Tx) (rm : Finset Tx) :
    selectBidTxLoop l ctx proposal maxTxBytes (tx :: rest) rm
      = selectBidTxLoop l ctx proposal maxTxBytes rest (insert tx rm) := by
  simp [selectBidTxLoop, GetTxHashStr, henc, hc, hsz, CacheContext, hv]

theorem selectBidTxLoop_verify_panic {tx : Tx} {bz : Bytes} {p : Panic}
    (henc : l.TxEncoder tx = .ok bz) (hc : l.sha256Hex bz ∉ proposal.Cache)
    (hsz : (bz.length : Int) ≤ maxTxBytes)
    (hv : VerifyTx l ctx tx = .error p)
    (rest : List Tx) (rm : Finset Tx) :
    selectBidTxLoop l ctx proposal maxTxBytes (tx :: rest) rm = .error p := by
  simp [selectBidTxLoop, GetTxHashStr, henc, hc, hsz, CacheContext, hv]

theorem selectBidTxLoop_bundle {tx : Tx} {bz : Bytes} {c : State} {bidInfo : BidInfo}
    (henc : l.TxEncoder tx = .ok bz) (hc : l.sha256Hex bz ∉ proposal.Cache)
    (hsz : (bz.length : Int) ≤ maxTxBytes)
    (hv : VerifyTx l ctx tx = .ok (c, none))
    (hinfo : l.GetAuctionBidInfo tx = (some bidInfo, none))
    (rest : List Tx) (rm : Finset Tx) :
    selectBidTxLoop l ctx proposal maxTxBytes (tx :: rest) rm
      = match bundleBytes l proposal bidInfo.Transactions with
        | .remove => selectBidTxLoop l ctx proposal maxTxBytes rest (insert tx rm)
        | .skip => selectBidTxLoop l ctx proposal maxTxBytes rest rm
        | .bytes bundledTxBz => .ok ⟨bz :: bundledTxBz, bz.length, rm, c⟩ := by
  simp [selectBidTxLoop, GetTxHashStr, henc, hc, hsz, CacheContext, hv, hinfo]

end Loop

theorem VerifyTx_ok_bidInfo (l : TOBLane Tx State) (ctx : State) {tx : Tx} {c : State}
    (hv : VerifyTx l ctx tx = .ok (c, none)) :
    ∃ bidInfo, l.GetAuctionBidInfo tx = (some bidInfo, none) := by
  unfold VerifyTx at hv
  split at hv
  · simp at hv
  · rename_i bidInfo hinfo
    split at hv
    · simp at hv
    · cases bidInfo with
      | none => simp at hv
      | some b => exact ⟨b, hinfo⟩

theorem VerifyTx_panic_bidInfo (l : TOBLane Tx State) (ctx : State) {tx : Tx} {p : Panic}
    (hv : VerifyTx l ctx tx = .error p) :
    l.GetAuctionBidInfo tx = (none, none) ∧ p = .nilPointerDereference := by
  unfold VerifyTx at hv
  split at hv
  · simp at hv
  · rename_i bidInfo hinfo
    split at hv
    · simp at hv
    · cases bidInfo with
      | none => simp at hv; exact ⟨hinfo, hv.symm⟩
      | some b => simp at hv

theorem bundleBytes_eq_bytes_iff (l : TOBLane Tx State) (proposal : Proposal)
    (raws : List Bytes) (bzs : List Bytes) :
    bundleBytes l proposal raws = .bytes bzs ↔ List.Forall₂ (EntryBytes l proposal) raws bzs := by
  induction raws generalizing bzs with
  | nil =>
    constructor
    · intro h
      simp [bundleBytes] at h
      subst h
      exact List.Forall₂.nil
    · intro h
      cases h
      simp [bundleBytes]
  | cons raw rest ih =>
    constructor
    · intro h
      unfold bundleBytes at h
      cases hw : l.WrapBundleTransaction raw with
      | error e => simp [hw] at h
      | ok sdkTx =>
        cases henc : l.TxEncoder sdkTx with
        | error e => simp [hw, GetTxHashStr, henc] at h
        | ok bz =>
          by_cases hc : l.sha256Hex bz ∈ proposal.Cache
          · simp [hw, GetTxHashStr, henc, hc] at h
          · cases hb : bundleBytes l proposal rest with
            | remove => simp [hw, GetTxHashStr, henc, hc, hb] at h
            | skip => simp [hw, GetTxHashStr, henc, hc, hb] at h
            | bytes bs =>
              simp [hw, GetTxHashStr, henc, hc, hb] at h
              subst h
              exact List.Forall₂.cons ⟨sdkTx, hw, henc, hc⟩ ((ih bs).mp hb)
    · intro h
      cases h with
      | cons hhead htail =>
        obtain ⟨sdkTx, hw, henc, hc⟩ := hhead
        unfold bundleBytes
        simp [hw, GetTxHashStr, henc, hc, (ih _).mpr htail]

/-- After a prefix of entries that wrap, encode and do not collide, an entry
that fails makes the inner loop mark the bid. -/
theorem bundleBytes_remove (l : TOBLane Tx State) (proposal : Proposal)
    {pre : List Bytes} {bzs : List Bytes} {raw : Bytes} (post : List Bytes)
    (hpre : List.Forall₂ (EntryBytes l proposal) pre bzs) (hraw : EntryFails l raw) :
    bundleBytes l proposal (pre ++ raw :: post) = .remove := by
  induction hpre with
  | nil =>
    rcases hraw with ⟨err, hw⟩ | ⟨sdkTx, err, hw, henc⟩
    · simp [bundleBytes, hw]
    · simp [bundleBytes, hw, GetTxHashStr, henc]
  | cons hhead _ ih =>
    obtain ⟨sdkTx, hw, henc, hc⟩ := hhead
    simp [bundleBytes, hw, GetTxHashStr, henc, hc, ih]

/-- After a prefix of entries that wrap, encode and do not collide, an entry
whose fingerprint is in the included set makes the inner loop skip the bid. -/
theorem bundleBytes_skip (l : TOBLane Tx State) (proposal : Proposal)
    {pre : List Bytes} {bzs : List Bytes} {raw : Bytes} (post : List Bytes)
    (hpre : List.Forall₂ (EntryBytes l proposal) pre bzs) (hraw : EntryCollides l proposal raw) :
    bundleBytes l proposal (pre ++ raw :: post) = .skip := by
  induction hpre with
  | nil =>
    obtain ⟨sdkTx, bz, hw, henc, hc⟩ := hraw
    simp [bundleBytes, hw, GetTxHashStr, henc, hc]
  | cons hhead _ ih =>
    obtain ⟨sdkTx, hw, henc, hc⟩ := hhead
    simp [bundleBytes, hw, GetTxHashStr, henc, hc, ih]

/-- What the loop does with one candidate `t`: it advances, with `t` marked
or not, and `t` is not selectable; or it selects `t` and is left; or it
panics, the bid information of `t` being nil with a nil error. -/
theorem selectBidTxLoop_step [DecidableEq Tx] (l : TOBLane Tx State) (ctx : State)
    (proposal : Proposal) (maxTxBytes : Int) (t : Tx) (rm : Finset Tx) :
    (∃ rm', (rm' = rm ∨ rm' = insert t rm) ∧
        (∀ txs c, ¬ Selectable l ctx proposal maxTxBytes t txs c) ∧
        ∀ rest, selectBidTxLoop l ctx proposal maxTxBytes (t :: rest) rm
          = selectBidTxLoop l ctx proposal maxTxBytes rest rm') ∨
    (∃ bz bs c, Selectable l ctx proposal maxTxBytes t (bz :: bs) c ∧
        l.TxEncoder t = .ok bz ∧
        ∀ rest, selectBidTxLoop l ctx proposal maxTxBytes (t :: rest) rm
          = .ok ⟨bz :: bs, bz.length, rm, c⟩) ∨
    (l.GetAuctionBidInfo t = (none, none) ∧
        ∀ rest, selectBidTxLoop l ctx proposal maxTxBytes (t :: rest) rm
          = .error .nilPointerDereference) := by
  cases henc : l.TxEncoder t with
  | error e =>
    left
    refine ⟨insert t rm, Or.inr rfl, ?_,
      fun rest => selectBidTxLoop_encode_error l ctx proposal maxTxBytes henc rest rm⟩
    rintro txs c ⟨bz, _, _, h, _⟩
    simp [henc] at h
  | ok bz =>
    by_cases hc : l.sha256Hex bz ∈ proposal.Cache
    · left
      refine ⟨rm, Or.inl rfl, ?_, fun rest => selectBidTxLoop_cached l ctx proposal maxTxBytes henc hc rest rm⟩
      rintro txs c ⟨bz', _, _, h, hc', _⟩
      rw [henc] at h
      cases h
      exact hc' hc
    · by_cases hsz : (bz.length : Int) ≤ maxTxBytes
      · cases hv : VerifyTx l ctx t with
        | error p =>
          right; right
          obtain ⟨hnil, hp⟩ := VerifyTx_panic_bidInfo l ctx hv
          subst hp
          exact ⟨hnil, fun rest => selectBidTxLoop_verify_panic l ctx proposal maxTxBytes henc hc hsz hv rest rm⟩
        | ok res =>
          obtain ⟨c, r⟩ := res
          cases r with
          | some e =>
            left
            refine ⟨insert t rm, Or.inr rfl, ?_,
              fun rest => selectBidTxLoop_verify_error l ctx proposal maxTxBytes henc hc hsz hv rest rm⟩
            rintro txs c' ⟨_, _, _, _, _, _, h, _⟩
            rw [hv] at h
            simp at h
          | none =>
            obtain ⟨bidInfo, hinfo⟩ := VerifyTx_ok_bidInfo l ctx hv
            have hstep := selectBidTxLoop_bundle l ctx proposal maxTxBytes henc hc hsz hv hinfo
            cases hb : bundleBytes l proposal bidInfo.Transactions with
            | bytes bs =>
              right; left
              refine ⟨bz, bs, c, ⟨bz, bidInfo, bs, henc, hc, hsz, hv, hinfo,
                (bundleBytes_eq_bytes_iff l proposal _ _).mp hb, rfl⟩, rfl, ?_⟩
              intro rest
              rw [hstep rest rm, hb]
            | remove =>
              left
              refine ⟨insert t rm, Or.inr rfl, ?_, ?_⟩
              · rintro txs c' ⟨_, bi, bs, _, _, _, _, hi, hf, _⟩
                rw [hinfo] at hi
                cases hi
                rw [← bundleBytes_eq_bytes_iff, hb] at hf
                cases hf
              · intro rest
                rw [hstep rest rm, hb]
            | skip =>
              left
              refine ⟨rm, Or.inl rfl, ?_, ?_⟩
              · rintro txs c' ⟨_, bi, bs, _, _, _, _, hi, hf, _⟩
                rw [hinfo] at hi
                cases hi
                rw [← bundleBytes_eq_bytes_iff, hb] at hf
                cases hf
              · intro rest
                rw [hstep rest rm, hb]
      · left
        refine ⟨insert t rm, Or.inr rfl, ?_,
          fun rest => selectBidTxLoop_too_large l ctx proposal maxTxBytes henc hc (not_le.mp hsz) rest rm⟩
        rintro txs c ⟨bz', _, _, h, _, hsz', _⟩
        rw [henc] at h
        cases h
        exact hsz hsz'

/-- A run that selects nothing on `pre` leaves the live state as it was, keeps
the marks it started with, and a run on `pre ++ post` continues on `post` from
the same live state with the marks made on `pre`. -/
theorem selectBidTxLoop_append [DecidableEq Tx] (l : TOBLane Tx State) (ctx : State)
    (proposal : Proposal) (maxTxBytes : Int) (pre : List Tx) (rm : Finset Tx)
    (sp : Selection Tx State)
    (h : selectBidTxLoop l ctx proposal maxTxBytes pre rm = .ok sp) (hrej : sp.txs = []) :
    sp.ctx = ctx ∧ sp.totalSize = 0 ∧ rm ⊆ sp.txsToRemove ∧
    ∀ post, selectBidTxLoop l ctx proposal maxTxBytes (pre ++ post) rm
      = selectBidTxLoop l ctx proposal maxTxBytes post sp.txsToRemove := by
  induction pre generalizing rm with
  | nil =>
    simp [selectBidTxLoop] at h
    subst h
    simp
  | cons t pre ih =>
    rcases selectBidTxLoop_step l ctx proposal maxTxBytes t rm with
      ⟨rm', hrm, _, hstep⟩ | ⟨bz, bs, c, _, _, hstep⟩ | ⟨_, hstep⟩
    · rw [hstep] at h
      obtain ⟨h1, h2, h3, h4⟩ := ih rm' h
      refine ⟨h1, h2, ?_, ?_⟩
      · rcases hrm with rfl | rfl
        · exact h3
        · exact (Finset.subset_insert _ _).trans h3
      · intro post
        rw [List.cons_append, hstep, h4]
    · rw [hstep] at h
      cases h
      simp at hrej
    · rw [hstep] at h
      cases h

/-- The shape of every run of the loop: nothing is selected and no candidate
is selectable; or the first selectable candidate is selected, whatever
follows it; or the run panics at a candidate whose bid information is nil with
a nil error, no candidate before it being selectable. -/
theorem selectBidTxLoop_post [DecidableEq Tx] (l : TOBLane Tx State) (ctx : State)
    (proposal : Proposal) (maxTxBytes : Int) (cands : List Tx) (rm : Finset Tx) :
    (∃ s, selectBidTxLoop l ctx proposal maxTxBytes cands rm = .ok s ∧
        s.txs = [] ∧ s.totalSize = 0 ∧ s.ctx = ctx ∧
        ∀ t ∈ cands, ∀ txs c, ¬ Selectable l ctx proposal maxTxBytes t txs c) ∨
    (∃ s pre t post bz, selectBidTxLoop l ctx proposal maxTxBytes cands rm = .ok s ∧
        cands = pre ++ t :: post ∧
        (∀ u ∈ pre, ∀ txs c, ¬ Selectable l ctx proposal maxTxBytes u txs c) ∧
        Selectable l ctx proposal maxTxBytes t s.txs s.ctx ∧
        l.TxEncoder t = .ok bz ∧ s.totalSize = bz.length ∧
        ∀ post', selectBidTxLoop l ctx proposal maxTxBytes (pre ++ t :: post') rm = .ok s) ∨
    (∃ pre t post, selectBidTxLoop l ctx proposal maxTxBytes cands rm
          = .error .nilPointerDereference ∧
        cands = pre ++ t :: post ∧
        (∀ u ∈ pre, ∀ txs c, ¬ Selectable l ctx proposal maxTxBytes u txs c) ∧
        l.GetAuctionBidInfo t = (none, none)) := by
  induction cands generalizing rm with
  | nil =>
    left
    exact ⟨_, rfl, rfl, rfl, rfl, by simp⟩
  | cons t rest ih =>
    rcases selectBidTxLoop_step l ctx proposal maxTxBytes t rm with
      ⟨rm', _, hnot, hstep⟩ | ⟨bz, bs, c, hsel, henc, hstep⟩ | ⟨hnil, hstep⟩
    · have hcons : ∀ pre : List Tx,
          (∀ u ∈ pre, ∀ txs c, ¬ Selectable l ctx proposal maxTxBytes u txs c) →
          ∀ u ∈ t :: pre, ∀ txs c, ¬ Selectable l ctx proposal maxTxBytes u txs c := by
        intro pre hpre u hu
        rcases List.mem_cons.mp hu with rfl | hu
        · exact hnot
        · exact hpre u hu
      rcases ih rm' with ⟨s, h, h1, h2, h3, h4⟩ | ⟨s, pre, u, post, bz, h, hc, hpre, hsel, he, hsz, hind⟩ |
        ⟨pre, u, post, h, hc, hpre, hnil⟩
      · left
        exact ⟨s, by rw [hstep, h], h1, h2, h3, hcons rest h4⟩
      · right; left
        refine ⟨s, t :: pre, u, post, bz, by rw [hstep, h], by simp [hc], hcons pre hpre, hsel,
          he, hsz, ?_⟩
        intro post'
        rw [List.cons_append, hstep, hind]
      · right; right
        exact ⟨t :: pre, u, post, by rw [hstep, h], by simp [hc], hcons pre hpre, hnil⟩
    · right; left
      exact ⟨_, [], t, rest, bz, hstep rest, rfl, by simp, hsel, henc, rfl, fun post' => hstep post'⟩
    · right; right
      exact ⟨[], t, rest, hstep rest, rfl, by simp, hnil⟩

/-! ## Selection by `PrepareLane` -/

/-- C1 (counterexample): with candidates `bid 7` then `bid 8`, both encodable,
within the ceiling 10 and passing `VerifyTx`, and the fingerprint of `bid 7`
already in the proposal's included set, the loop selects `bid 8`: the selected
candidate is not the first one that encodes, fits and passes the verifier. -/
theorem selectsFirstQualifying_fails :
    Qualifies (demoLane [] none) 0 10 (.bid 7 [[1, 2]]) ∧
    selectBidTxLoop (demoLane [] none) 0 ⟨[], {demoHash [0, 7, 1, 2]}, 0, 10⟩ 10
        [.bid 7 [[1, 2]], .bid 8 [[1, 3]]] ∅
      = .ok ⟨[[0, 8, 1, 3], [1, 3]], 4, ∅, 103⟩ ∧
    ¬ SelectsFirstQualifying (demoLane [] none) 0 ⟨[], {demoHash [0, 7, 1, 2]}, 0, 10⟩ 10
        [.bid 7 [[1, 2]], .bid 8 [[1, 3]]] := by
  have hq : Qualifies (demoLane [] none) 0 10 (.bid 7 [[1, 2]]) :=
    ⟨[0, 7, 1, 2], 102, rfl, by decide, by decide⟩
  have hrun : selectBidTxLoop (demoLane [] none) 0 ⟨[], {demoHash [0, 7, 1, 2]}, 0, 10⟩ 10
        [.bid 7 [[1, 2]], .bid 8 [[1, 3]]] ∅
      = .ok ⟨[[0, 8, 1, 3], [1, 3]], 4, ∅, 103⟩ := by decide
  refine ⟨hq, hrun, ?_⟩
  intro h
  obtain ⟨bz, henc, hhead⟩ := h _ hrun [] _ _ rfl (by simp) hq
  have hbz : bz = [0, 7, 1, 2] := by
    have : demoEncode (.bid 7 [[1, 2]]) = .ok bz := henc
    simp [demoEncode] at this
    exact this.symm
  subst hbz
  revert hhead
  decide

/-- C1 (as amended): on every candidate sequence the loop of `PrepareLane`
selects at most one bid-and-bundle.  When it is left normally, either nothing
is selected and no candidate is selectable, or the selected list is that of
the first candidate in the source's order that is selectable: it encodes, its
fingerprint is not in the proposal's included set, its encoded size is at most
`maxTxBytes`, it passes `VerifyTx`, and each of its bundle entries wraps and
encodes to bytes whose fingerprint is not in the included set.  The only other
outcome is a nil dereference in `VerifyTx`, at a candidate whose bid
information is nil with a nil error and before which no candidate is
selectable. -/
theorem selectBidTxLoop_selects_first_selectable [DecidableEq Tx] (l : TOBLane Tx State)
    (ctx : State) (proposal : Proposal) (maxTxBytes : Int) (cands : List Tx)
    (rm : Finset Tx) :
    (∀ s, selectBidTxLoop l ctx proposal maxTxBytes cands rm = .ok s →
      (s.txs = [] ∧ ∀ t ∈ cands, ∀ txs c, ¬ Selectable l ctx proposal maxTxBytes t txs c) ∨
      (∃ pre t post, cands = pre ++ t :: post ∧
        (∀ u ∈ pre, ∀ txs c, ¬ Selectable l ctx proposal maxTxBytes u txs c) ∧
        Selectable l ctx proposal maxTxBytes t s.txs s.ctx)) ∧
    (∀ p, selectBidTxLoop l ctx proposal maxTxBytes cands rm = .error p →
      p = .nilPointerDereference ∧
      ∃ pre t post, cands = pre ++ t :: post ∧
        (∀ u ∈ pre, ∀ txs c, ¬ Selectable l ctx proposal maxTxBytes u txs c) ∧
        l.GetAuctionBidInfo t = (none, none)) := by
  rcases selectBidTxLoop_post l ctx proposal maxTxBytes cands rm with
    ⟨s, h, h1, _, _, h4⟩ | ⟨s, pre, t, post, bz, h, hc, hpre, hsel, _, _, _⟩ |
    ⟨pre, t, post, h, hc, hpre, hnil⟩
  · refine ⟨?_, ?_⟩
    · intro s' hs
      rw [h] at hs
      cases hs
      exact Or.inl ⟨h1, h4⟩
    · intro p hp
      rw [h] at hp
      cases hp
  · refine ⟨?_, ?_⟩
    · intro s' hs
      rw [h] at hs
      cases hs
      exact Or.inr ⟨pre, t, post, hc, hpre, hsel⟩
    · intro p hp
      rw [h] at hp
      cases hp
  · refine ⟨?_, ?_⟩
    · intro s' hs
      rw [h] at hs
      cases hs
    · intro p hp
      rw [h] at hp
      cases hp
      exact ⟨rfl, pre, t, post, hc, hpre, hnil⟩

/-- C1 (witness): on the candidates `bid 7`, `bid 8` with the fingerprint of
`bid 7` in the included set, the selected list is that of a selectable
candidate no selectable candidate precedes. -/
theorem selectBidTxLoop_selects_first_selectable_witness :
    ∃ pre t post, [DemoTx.bid 7 [[1, 2]], .bid 8 [[1, 3]]] = pre ++ t :: post ∧
      (∀ u ∈ pre, ∀ txs c, ¬ Selectable (demoLane [] none) 0
        ⟨[], {demoHash [0, 7, 1, 2]}, 0, 10⟩ 10 u txs c) ∧
      Selectable (demoLane [] none) 0 ⟨[], {demoHash [0, 7, 1, 2]}, 0, 10⟩ 10 t
        [[0, 8, 1, 3], [1, 3]] 103 := by
  have hrun : selectBidTxLoop (demoLane [] none) 0 ⟨[], {demoHash [0, 7, 1, 2]}, 0, 10⟩ 10
        [.bid 7 [[1, 2]], .bid 8 [[1, 3]]] ∅
      = .ok ⟨[[0, 8, 1, 3], [1, 3]], 4, ∅, 103⟩ := by decide
  rcases (selectBidTxLoop_selects_first_selectable (demoLane [] none) 0
      ⟨[], {demoHash [0, 7, 1, 2]}, 0, 10⟩ 10 _ ∅).1 _ hrun with ⟨h, _⟩ | h
  · simp at h
  · exact h

/-! ## Sizes -/

/-- C2 (the code at a failing input): with the ceiling `maxTxBytes = 6` and one
candidate whose bid encodes to 6 bytes and whose two bundled transactions
encode to 2 bytes each, the loop selects three transactions, 10 bytes in all,
and `PrepareLane` hands them to `UpdateProposal` and the result to `next`. -/
theorem prepareLane_hands_over_more_than_maxTxBytes :
    ∃ s, selectBidTxLoop (demoLane [.bid 7 [[1, 2], [1, 3]]] none) 0 (emptyProposal 6) 6
        [.bid 7 [[1, 2], [1, 3]]] ∅ = .ok s ∧
      PrepareLane (demoLane [.bid 7 [[1, 2], [1, 3]]] none) 0 (emptyProposal 6) 6
          (fun _ proposal => proposal)
        = .ok ⟨(emptyProposal 6).UpdateProposal demoHash s.txs s.totalSize, s.ctx,
            s.txsToRemove,
            [(s.ctx, (emptyProposal 6).UpdateProposal demoHash s.txs s.totalSize)]⟩ ∧
      s.txs = [[0, 7, 1, 2, 1, 3], [1, 2], [1, 3]] ∧
      totalBytes s.txs = 10 ∧ (6 : Int) < totalBytes s.txs := by
  refine ⟨⟨[[0, 7, 1, 2, 1, 3], [1, 2], [1, 3]], 6, ∅, 105⟩, by decide, by decide, rfl,
    by decide, by decide⟩

/-- C3 (the code at a failing input): for the accepted candidate whose bid
encodes to 6 bytes and whose two bundled transactions encode to 2 bytes each,
the `totalSize` passed to `UpdateProposal` is 6, the byte length of the bid
alone, while the bid-plus-bundle size is 10; the proposal's running total
grows by 6. -/
theorem selectBidTxLoop_totalSize_is_bid_size_only :
    ∃ s, selectBidTxLoop (demoLane [] none) 0 (emptyProposal 100) 100
        [.bid 7 [[1, 2], [1, 3]]] ∅ = .ok s ∧
      s.txs = [[0, 7, 1, 2, 1, 3], [1, 2], [1, 3]] ∧
      s.totalSize = 6 ∧ totalBytes s.txs = 10 ∧
      ((emptyProposal 100).UpdateProposal demoHash s.txs s.totalSize).TotalTxBytes = 6 := by
  refine ⟨⟨[[0, 7, 1, 2, 1, 3], [1, 2], [1, 3]], 6, ∅, 105⟩, by decide, rfl, rfl, by decide,
    by decide⟩

/-! ## Removal and the continuation -/

/-- C4 (the code at a failing input): the first candidate fails verification
and is marked, the second is accepted and its snapshot merged (the live state
becomes 105); the removal of the marked candidate then fails, and `PrepareLane`
returns the proposal it was given, without the selected transactions and
without calling `next`. -/
theorem prepareLane_removal_failure_drops_selection :
    PrepareLane (demoLane [.bid 9 [[1, 0]], .bid 7 [[1, 2], [1, 3]]] (some "tx not found")) 0
        (emptyProposal 10) 10 (fun _ proposal => proposal)
      = .ok ⟨emptyProposal 10, 105, {.bid 9 [[1, 0]]}, []⟩ ∧
    selectBidTxLoop (demoLane [.bid 9 [[1, 0]], .bid 7 [[1, 2], [1, 3]]] (some "tx not found")) 0
        (emptyProposal 10) 10 [.bid 9 [[1, 0]], .bid 7 [[1, 2], [1, 3]]] ∅
      = .ok ⟨[[0, 7, 1, 2, 1, 3], [1, 2], [1, 3]], 6, {.bid 9 [[1, 0]]}, 105⟩ := by
  constructor <;> decide

/-! ## Rejected candidates -/

/-- C5 (counterexample): the candidate `bid 7` fits the ceiling 10 and its
second bundled transaction has a fingerprint that is already in the
proposal's included set; the loop advances past it and leaves the set of
marked candidates empty: the candidate is not marked for removal. -/
theorem marksAndAdvances_fails_on_collision :
    (∃ bz, demoEncode (.bid 7 [[1, 2], [1, 3]]) = .ok bz ∧ (bz.length : Int) ≤ 10) ∧
    EntryCollides (demoLane [] none) ⟨[], {demoHash [1, 3]}, 0, 10⟩ [1, 3] ∧
    selectBidTxLoop (demoLane [] none) 0 ⟨[], {demoHash [1, 3]}, 0, 10⟩ 10
        [.bid 7 [[1, 2], [1, 3]]] ∅ = .ok ⟨[], 0, ∅, 0⟩ ∧
    ¬ MarksAndAdvances (demoLane [] none) 0 ⟨[], {demoHash [1, 3]}, 0, 10⟩ 10
        (.bid 7 [[1, 2], [1, 3]]) := by
  refine ⟨⟨_, rfl, by decide⟩, ⟨.plain 3, [1, 3], rfl, rfl, by decide⟩, by decide, ?_⟩
  intro h
  exact absurd (h [] ∅) (by decide)

/-- C5 (as amended): for a candidate that reaches the size test (it encodes
and its own fingerprint is not in the included set) and fits the ceiling: an
error of `VerifyTx` marks the candidate and the loop advances; a bundled
transaction that cannot be wrapped or encoded, after entries that could, marks
the candidate and the loop advances; a bundled transaction whose fingerprint
is already in the included set, after entries without collision, makes the
loop advance with the marked set unchanged. -/
theorem selectBidTxLoop_failure_marks_collision_skips [DecidableEq Tx] (l : TOBLane Tx State)
    (ctx : State) (proposal : Proposal) (maxTxBytes : Int) (tx : Tx) (bz : Bytes)
    (henc : l.TxEncoder tx = .ok bz) (hc : l.sha256Hex bz ∉ proposal.Cache)
    (hsz : (bz.length : Int) ≤ maxTxBytes) (rest : List Tx) (rm : Finset Tx) :
    (∀ c e, VerifyTx l ctx tx = .ok (c, some e) →
      selectBidTxLoop l ctx proposal maxTxBytes (tx :: rest) rm
        = selectBidTxLoop l ctx proposal maxTxBytes rest (insert tx rm)) ∧
    (∀ c bidInfo pre bzs raw post, VerifyTx l ctx tx = .ok (c, none) →
      l.GetAuctionBidInfo tx = (some bidInfo, none) →
      bidInfo.Transactions = pre ++ raw :: post →
      List.Forall₂ (EntryBytes l proposal) pre bzs →
      (EntryFails l raw →
        selectBidTxLoop l ctx proposal maxTxBytes (tx :: rest) rm
          = selectBidTxLoop l ctx proposal maxTxBytes rest (insert tx rm)) ∧
      (EntryCollides l proposal raw →
        selectBidTxLoop l ctx proposal maxTxBytes (tx :: rest) rm
          = selectBidTxLoop l ctx proposal maxTxBytes rest rm)) := by
  refine ⟨?_, ?_⟩
  · intro c e hv
    exact selectBidTxLoop_verify_error l ctx proposal maxTxBytes henc hc hsz hv rest rm
  · intro c bidInfo pre bzs raw post hv hinfo hsplit hpre
    have hstep := selectBidTxLoop_bundle l ctx proposal maxTxBytes henc hc hsz hv hinfo rest rm
    refine ⟨?_, ?_⟩
    · intro hraw
      rw [hstep, hsplit, bundleBytes_remove l proposal post hpre hraw]
    · intro hraw
      rw [hstep, hsplit, bundleBytes_skip l proposal post hpre hraw]

/-- C5 (witness): `bid 7`, whose second bundled transaction collides with the
included set, is passed over unmarked, and the run continues with `bid 8`. -/
theorem selectBidTxLoop_failure_marks_collision_skips_witness :
    selectBidTxLoop (demoLane [] none) 0 ⟨[], {demoHash [1, 3]}, 0, 10⟩ 10
        [.bid 7 [[1, 2], [1, 3]], .bid 8 [[1, 4]]] ∅
      = selectBidTxLoop (demoLane [] none) 0 ⟨[], {demoHash [1, 3]}, 0, 10⟩ 10
        [.bid 8 [[1, 4]]] ∅ :=
  ((selectBidTxLoop_failure_marks_collision_skips (demoLane [] none) 0
      ⟨[], {demoHash [1, 3]}, 0, 10⟩ 10 (.bid 7 [[1, 2], [1, 3]]) [0, 7, 1, 2, 1, 3]
      rfl (by decide) (by decide) [.bid 8 [[1, 4]]] ∅).2
    105 ⟨[[1, 2], [1, 3]]⟩ [[1, 2]] [[1, 2]] [1, 3] [] (by decide) rfl rfl
    (List.Forall₂.cons ⟨.plain 2, rfl, rfl, by decide⟩ List.Forall₂.nil)).2
    ⟨.plain 3, [1, 3], rfl, rfl, by decide⟩

/-- When the ceiling is below the encoded size of every candidate, the loop
selects nothing, leaves the live state alone and marks every candidate except
those whose fingerprint is in the included set. -/
theorem selectBidTxLoop_all_too_large [DecidableEq Tx] (l : TOBLane Tx State) (ctx : State)
    (proposal : Proposal) (maxTxBytes : Int) (cands : List Tx) (rm : Finset Tx)
    (hbig : ∀ t ∈ cands, ∀ bz, l.TxEncoder t = .ok bz → maxTxBytes < (bz.length : Int)) :
    ∃ rm', selectBidTxLoop l ctx proposal maxTxBytes cands rm = .ok ⟨[], 0, rm', ctx⟩ ∧
      rm ⊆ rm' ∧
      ∀ t ∈ cands, (∀ bz, l.TxEncoder t = .ok bz → l.sha256Hex bz ∉ proposal.Cache) →
        t ∈ rm' := by
  induction cands generalizing rm with
  | nil => exact ⟨rm, rfl, Finset.Subset.refl _, by simp⟩
  | cons t rest ih =>
    have hrest : ∀ u ∈ rest, ∀ bz, l.TxEncoder u = .ok bz → maxTxBytes < (bz.length : Int) :=
      fun u hu => hbig u (List.mem_cons_of_mem _ hu)
    cases henc : l.TxEncoder t with
    | error e =>
      obtain ⟨rm', h, hsub, hmark⟩ := ih (insert t rm) hrest
      refine ⟨rm', by rw [selectBidTxLoop_encode_error l ctx proposal maxTxBytes henc, h],
        (Finset.subset_insert _ _).trans hsub, ?_⟩
      intro u hu hun
      rcases List.mem_cons.mp hu with rfl | hu
      · exact hsub (Finset.mem_insert_self _ _)
      · exact hmark u hu hun
    | ok bz =>
      by_cases hc : l.sha256Hex bz ∈ proposal.Cache
      · obtain ⟨rm', h, hsub, hmark⟩ := ih rm hrest
        refine ⟨rm', by rw [selectBidTxLoop_cached l ctx proposal maxTxBytes henc hc, h],
          hsub, ?_⟩
        intro u hu hun
        rcases List.mem_cons.mp hu with rfl | hu
        · exact absurd hc (hun bz henc)
        · exact hmark u hu hun
      · obtain ⟨rm', h, hsub, hmark⟩ := ih (insert t rm) hrest
        have hsz := hbig t (List.mem_cons_self _ _) bz henc
        refine ⟨rm', by rw [selectBidTxLoop_too_large l ctx proposal maxTxBytes henc hc hsz, h],
          (Finset.subset_insert _ _).trans hsub, ?_⟩
        intro u hu hun
        rcases List.mem_cons.mp hu with rfl | hu
        · exact hsub (Finset.mem_insert_self _ _)
        · exact hmark u hu hun

/-- Updating a proposal with no transactions and size 0 leaves it as it is. -/
theorem Proposal.UpdateProposal_nil (sha256Hex : Bytes → String) (p : Proposal) :
    p.UpdateProposal sha256Hex [] 0 = p := by
  cases p
  simp [Proposal.UpdateProposal]

/-- C6 (counterexample): the ceiling 3 is below the encoded size of the only
candidate, whose fingerprint is already in the proposal's included set;
`PrepareLane` selects nothing and the candidate is not in the set marked for
removal. -/
theorem prepareLane_too_large_unmarked :
    (∀ t ∈ [DemoTx.bid 7 [[1, 2]]], ∀ bz, demoEncode t = .ok bz → (3 : Int) < bz.length) ∧
    ∃ o, PrepareLane (demoLane [.bid 7 [[1, 2]]] none) 0 ⟨[], {demoHash [0, 7, 1, 2]}, 0, 3⟩ 3
        (fun _ proposal => proposal) = .ok o ∧
      o.ret = ⟨[], {demoHash [0, 7, 1, 2]}, 0, 3⟩ ∧
      DemoTx.bid 7 [[1, 2]] ∉ o.txsToRemove := by
  refine ⟨?_, ⟨⟨[], {demoHash [0, 7, 1, 2]}, 0, 3⟩, 0, ∅,
    [(0, ⟨[], {demoHash [0, 7, 1, 2]}, 0, 3⟩)]⟩, by decide, rfl, by simp⟩
  intro t ht bz hbz
  simp at ht
  subst ht
  simp [demoEncode] at hbz
  subst hbz
  decide

/-- C6 (as amended): when `maxTxBytes` is smaller than the encoded size of
every candidate, `PrepareLane` selects nothing: the loop is left with no
transactions and size 0, the live state is unchanged, updating the proposal
with no transactions and size 0 leaves it as it was given, `next` is called
with nothing but that proposal, the returned proposal is that of `next`, or
the given one when the removal fails, and every candidate is in the set marked
for removal unless its fingerprint is already in the proposal's included
set. -/
theorem prepareLane_ceiling_below_every_candidate [DecidableEq Tx] (l : TOBLane Tx State)
    (ctx : State) (proposal : Proposal) (maxTxBytes : Int)
    (next : State → Proposal → Proposal)
    (hbig : ∀ t ∈ l.Select ctx, ∀ bz, l.TxEncoder t = .ok bz →
      maxTxBytes < (bz.length : Int)) :
    ∃ o, PrepareLane l ctx proposal maxTxBytes next = .ok o ∧ o.ctx = ctx ∧
      selectBidTxLoop l ctx proposal maxTxBytes (l.Select ctx) ∅
        = .ok ⟨[], 0, o.txsToRemove, ctx⟩ ∧
      proposal.UpdateProposal l.sha256Hex [] 0 = proposal ∧
      (∀ call ∈ o.nextCalls, call = (ctx, proposal)) ∧
      (l.RemoveTxsFromLane o.txsToRemove = none →
        o.nextCalls = [(ctx, proposal)] ∧ o.ret = next ctx proposal) ∧
      (l.RemoveTxsFromLane o.txsToRemove ≠ none → o.ret = proposal) ∧
      ∀ t ∈ l.Select ctx,
        (∀ bz, l.TxEncoder t = .ok bz → l.sha256Hex bz ∉ proposal.Cache) →
        t ∈ o.txsToRemove := by
  obtain ⟨rm', h, _, hmark⟩ :=
    selectBidTxLoop_all_too_large l ctx proposal maxTxBytes (l.Select ctx) ∅ hbig
  cases hrem : l.RemoveTxsFromLane rm' with
  | some err =>
    refine ⟨⟨proposal, ctx, rm', []⟩, by simp [PrepareLane, h, hrem], rfl, h,
      Proposal.UpdateProposal_nil _ _, by simp, ?_, ?_, hmark⟩
    · intro hnone
      simp [hrem] at hnone
    · intro _
      rfl
  | none =>
    refine ⟨⟨next ctx proposal, ctx, rm', [(ctx, proposal)]⟩,
      by simp [PrepareLane, h, hrem, Proposal.UpdateProposal_nil], rfl, h,
      Proposal.UpdateProposal_nil _ _, by simp, ?_, ?_, hmark⟩
    · intro _
      exact ⟨rfl, rfl⟩
    · intro hne
      exact absurd hrem hne

/-- C6 (witness): with ceiling 3 and the candidates `bid 7`, whose fingerprint
is in the included set, and `bid 8`, whose fingerprint is not, nothing is
selected and `bid 8` is marked. -/
theorem prepareLane_ceiling_below_every_candidate_witness :
    ∃ o, PrepareLane (demoLane [.bid 7 [[1, 2]], .bid 8 [[1, 3]]] none) 0
        ⟨[], {demoHash [0, 7, 1, 2]}, 0, 3⟩ 3 (fun _ proposal => proposal) = .ok o ∧
      o.ctx = 0 ∧
      (∀ call ∈ o.nextCalls, call = (0, ⟨[], {demoHash [0, 7, 1, 2]}, 0, 3⟩)) ∧
      DemoTx.bid 8 [[1, 3]] ∈ o.txsToRemove := by
  have hbig : ∀ t ∈ (demoLane [.bid 7 [[1, 2]], .bid 8 [[1, 3]]] none).Select 0, ∀ bz,
      (demoLane [.bid 7 [[1, 2]], .bid 8 [[1, 3]]] none).TxEncoder t = .ok bz →
      (3 : Int) < (bz.length : Int) := by
    intro t ht bz hbz
    have ht' : t = .bid 7 [[1, 2]] ∨ t = .bid 8 [[1, 3]] := by
      simpa [demoLane] using ht
    rcases ht' with rfl | rfl
    · have : demoEncode (.bid 7 [[1, 2]]) = .ok bz := hbz
      simp [demoEncode] at this
      subst this
      decide
    · have : demoEncode (.bid 8 [[1, 3]]) = .ok bz := hbz
      simp [demoEncode] at this
      subst this
      decide
  obtain ⟨o, ho, hctx, _, _, hcalls, _, _, hmark⟩ :=
    prepareLane_ceiling_below_every_candidate (demoLane [.bid 7 [[1, 2]], .bid 8 [[1, 3]]] none)
      0 ⟨[], {demoHash [0, 7, 1, 2]}, 0, 3⟩ 3 (fun _ proposal => proposal) hbig
  refine ⟨o, ho, hctx, hcalls, hmark _ (by simp [demoLane]) ?_⟩
  intro bz hbz
  have : demoEncode (.bid 8 [[1, 3]]) = .ok bz := hbz
  simp [demoEncode] at this
  subst this
  decide

/-- A selectable candidate at the head of the candidates is selected, and the
loop is left with its snapshot as the live state. -/
theorem selectBidTxLoop_select [DecidableEq Tx] (l : TOBLane Tx State) (ctx : State)
    (proposal : Proposal) (maxTxBytes : Int) {t : Tx} {txs : List Bytes} {c : State}
    (hsel : Selectable l ctx proposal maxTxBytes t txs c) (rest : List Tx) (rm : Finset Tx) :
    ∃ size, selectBidTxLoop l ctx proposal maxTxBytes (t :: rest) rm = .ok ⟨txs, size, rm, c⟩ := by
  obtain ⟨bz, bidInfo, bs, henc, hc, hsz, hv, hinfo, hf, rfl⟩ := hsel
  refine ⟨bz.length, ?_⟩
  rw [selectBidTxLoop_bundle l ctx proposal maxTxBytes henc hc hsz hv hinfo,
    (bundleBytes_eq_bytes_iff l proposal _ _).mpr hf]

/-! ## Snapshots -/

/-- C7: a candidate that reaches the verifier (it encodes, its fingerprint is
not in the included set, it fits the ceiling) and on which `VerifyTx` returns
an error, whatever its snapshot `c` has become, is marked for removal and the
loop goes on with the next candidate from the live state `ctx` it had before
the attempt; when it is the last candidate the loop is left with the live
state `ctx` and nothing selected. -/
theorem selectBidTxLoop_verification_failure_no_merge [DecidableEq Tx] (l : TOBLane Tx State)
    (ctx : State) (proposal : Proposal) (maxTxBytes : Int) (tx : Tx) (bz : Bytes)
    (c : State) (e : VerifyError)
    (henc : l.TxEncoder tx = .ok bz) (hc : l.sha256Hex bz ∉ proposal.Cache)
    (hsz : (bz.length : Int) ≤ maxTxBytes)
    (hv : VerifyTx l ctx tx = .ok (c, some e)) :
    (∀ rest rm, selectBidTxLoop l ctx proposal maxTxBytes (tx :: rest) rm
      = selectBidTxLoop l ctx proposal maxTxBytes rest (insert tx rm)) ∧
    (∀ rm, selectBidTxLoop l ctx proposal maxTxBytes [tx] rm
      = .ok ⟨[], 0, insert tx rm, ctx⟩) := by
  have h := selectBidTxLoop_verify_error l ctx proposal maxTxBytes henc hc hsz hv
  refine ⟨h, ?_⟩
  intro rm
  rw [h]
  rfl

/-- C7 (witness): the ante check of the second bundled transaction of `bid 9`
fails after the bid and the first member succeeded, the snapshot having
reached 103; the run goes on from the live state 0 with `bid 9` marked, and
selects `bid 7`. -/
theorem selectBidTxLoop_verification_failure_no_merge_witness :
    VerifyTx (demoLane [] none) 0 (.bid 9 [[1, 2], [1, 0]])
      = .ok (103, some (.failedToExecuteBundledTransaction "ante: refused")) ∧
    selectBidTxLoop (demoLane [] none) 0 (emptyProposal 10) 10
        [.bid 9 [[1, 2], [1, 0]], .bid 7 [[1, 2]]] ∅
      = selectBidTxLoop (demoLane [] none) 0 (emptyProposal 10) 10
        [.bid 7 [[1, 2]]] (insert (.bid 9 [[1, 2], [1, 0]]) ∅) ∧
    selectBidTxLoop (demoLane [] none) 0 (emptyProposal 10) 10 [.bid 9 [[1, 2], [1, 0]]] ∅
      = .ok ⟨[], 0, insert (.bid 9 [[1, 2], [1, 0]]) ∅, 0⟩ :=
  ⟨by decide,
    (selectBidTxLoop_verification_failure_no_merge (demoLane [] none) 0 (emptyProposal 10) 10
      (.bid 9 [[1, 2], [1, 0]]) [0, 9, 1, 2, 1, 0] 103
      (.failedToExecuteBundledTransaction "ante: refused") rfl (by decide) (by decide)
      (by decide)).1 _ _,
    (selectBidTxLoop_verification_failure_no_merge (demoLane [] none) 0 (emptyProposal 10) 10
      (.bid 9 [[1, 2], [1, 0]]) [0, 9, 1, 2, 1, 0] 103
      (.failedToExecuteBundledTransaction "ante: refused") rfl (by decide) (by decide)
      (by decide)).2 _⟩

/-- Shape of an accepted selection: when the loop is left with a selection,
the selected list is that of
one candidate `t` with a bundle of `n` entries: `n + 1` byte strings, the
encoded bid first, then for each bundle entry, in bundle order, the encoding
of the transaction it wraps into; the live state is the snapshot `VerifyTx`
reached; what follows `t` among the candidates has no influence on the
result; and when the removal succeeds `PrepareLane` passes exactly this list
to `UpdateProposal` and the updated proposal to `next`. -/
theorem selectBidTxLoop_accepted_shape [DecidableEq Tx] (l : TOBLane Tx State) (ctx : State)
    (proposal : Proposal) (maxTxBytes : Int) (cands : List Tx) (rm : Finset Tx)
    (s : Selection Tx State)
    (h : selectBidTxLoop l ctx proposal maxTxBytes cands rm = .ok s) (hsel : s.txs ≠ []) :
    ∃ pre t post bidTxBz bidInfo bundledTxBz,
      cands = pre ++ t :: post ∧
      l.TxEncoder t = .ok bidTxBz ∧
      l.GetAuctionBidInfo t = (some bidInfo, none) ∧
      s.txs = bidTxBz :: bundledTxBz ∧
      s.txs.length = bidInfo.Transactions.length + 1 ∧
      List.Forall₂ (fun raw b => ∃ sdkTx, l.WrapBundleTransaction raw = .ok sdkTx ∧
        l.TxEncoder sdkTx = .ok b) bidInfo.Transactions bundledTxBz ∧
      VerifyTx l ctx t = .ok (s.ctx, none) ∧
      (∀ post', selectBidTxLoop l ctx proposal maxTxBytes (pre ++ t :: post') rm = .ok s) ∧
      (∀ next, cands = l.Select ctx → rm = ∅ → l.RemoveTxsFromLane s.txsToRemove = none →
        PrepareLane l ctx proposal maxTxBytes next
          = .ok ⟨next s.ctx (proposal.UpdateProposal l.sha256Hex (bidTxBz :: bundledTxBz)
              s.totalSize), s.ctx, s.txsToRemove,
            [(s.ctx, proposal.UpdateProposal l.sha256Hex (bidTxBz :: bundledTxBz)
              s.totalSize)]⟩) := by
  rcases selectBidTxLoop_post l ctx proposal maxTxBytes cands rm with
    ⟨s', h', h1, _⟩ | ⟨s', pre, t, post, bz, h', hc, _, hsel', _, _, hind⟩ | ⟨_, _, _, h', _⟩
  · rw [h] at h'
    cases h'
    exact absurd h1 hsel
  · rw [h] at h'
    cases h'
    obtain ⟨bidTxBz, bidInfo, bs, henc, _, _, hv, hinfo, hf, htxs⟩ := hsel'
    refine ⟨pre, t, post, bidTxBz, bidInfo, bs, hc, henc, hinfo, htxs, ?_, ?_, hv, hind, ?_⟩
    · rw [htxs, List.length_cons, hf.length_eq]
    · exact hf.imp (fun _ _ ⟨sdkTx, hw, he, _⟩ => ⟨sdkTx, hw, he⟩)
    · intro next hcands hrm hrem
      subst hcands hrm
      simp [PrepareLane, h, hrem, htxs]
  · rw [h] at h'
    cases h'

/-- An accepted selection on a concrete run: after the rejected `bid 9`, the
candidate `bid 7` with two
bundle entries is accepted: three byte strings are selected, the live state
becomes the snapshot 105 of the verifier, and `bid 8` behind it has no
influence. -/
theorem selectBidTxLoop_accepted_shape_witness :
    ∃ pre t post bidTxBz bidInfo bundledTxBz,
      [DemoTx.bid 9 [[1, 0]], .bid 7 [[1, 2], [1, 3]], .bid 8 []] = pre ++ t :: post ∧
      demoEncode t = .ok bidTxBz ∧
      demoBidInfo t = (some bidInfo, none) ∧
      [[0, 7, 1, 2, 1, 3], [1, 2], [1, 3]] = bidTxBz :: bundledTxBz ∧
      ([[0, 7, 1, 2, 1, 3], [1, 2], [1, 3]] : List Bytes).length
        = bidInfo.Transactions.length + 1 ∧
      VerifyTx (demoLane [] none) 0 t = .ok (105, none) := by
  obtain ⟨pre, t, post, bidTxBz, bidInfo, bundledTxBz, h1, h2, h3, h4, h5, _, h7, _⟩ :=
    selectBidTxLoop_accepted_shape (demoLane [] none) 0 (emptyProposal 10) 10
      [.bid 9 [[1, 0]], .bid 7 [[1, 2], [1, 3]], .bid 8 []] ∅
      ⟨[[0, 7, 1, 2, 1, 3], [1, 2], [1, 3]], 6, {.bid 9 [[1, 0]]}, 105⟩
      (by decide) (by decide)
  exact ⟨pre, t, post, bidTxBz, bidInfo, bundledTxBz, h1, h2, h3, h4, h5, h7⟩

/-- C8 (the code at a failing input): with the ceiling 6, the candidate
`bid 6`, too large, is marked, and `bid 8` with its one bundled transaction is
accepted: two byte strings are selected and the snapshot 104 of the verifier
is merged into the live state.  The removal of the marked candidate then
fails, and `PrepareLane` returns the proposal it was given: the selected list
is never handed to the proposal, whose transactions stay empty, and `next` is
not called. -/
theorem prepareLane_accepted_selection_not_handed_over :
    selectBidTxLoop
        (demoLane [.bid 6 [[1, 2], [1, 3], [1, 4]], .bid 8 [[1, 4]]] (some "tx not found")) 0
        (emptyProposal 6) 6 [.bid 6 [[1, 2], [1, 3], [1, 4]], .bid 8 [[1, 4]]] ∅
      = .ok ⟨[[0, 8, 1, 4], [1, 4]], 4, {.bid 6 [[1, 2], [1, 3], [1, 4]]}, 104⟩ ∧
    VerifyTx (demoLane [] none) 0 (.bid 8 [[1, 4]]) = .ok (104, none) ∧
    ∃ o, PrepareLane
        (demoLane [.bid 6 [[1, 2], [1, 3], [1, 4]], .bid 8 [[1, 4]]] (some "tx not found")) 0
        (emptyProposal 6) 6 (fun _ proposal => proposal) = .ok o ∧
      o.ctx = 104 ∧ o.ret = emptyProposal 6 ∧ o.ret.Txs = [] ∧ o.nextCalls = [] := by
  refine ⟨by decide, by decide,
    ⟨emptyProposal 6, 104, {.bid 6 [[1, 2], [1, 3], [1, 4]]}, []⟩, by decide, rfl, rfl, rfl,
    rfl⟩

/-- C9: after any run of candidates `pre` on which nothing is selected, the
live state is the original one, and the candidates that follow are handled
exactly as by a run started on the original live state `ctx`, the marks made
on `pre` apart: a candidate selectable on a snapshot of `ctx` is selected with
the snapshot its verification reaches, and a candidate whose verification
fails on a snapshot of `ctx` is marked.  In particular, when `PrepareLane`
accepts no candidate, the live state after it is the live state before it. -/
theorem selectBidTxLoop_fresh_snapshot [DecidableEq Tx] (l : TOBLane Tx State) (ctx : State)
    (proposal : Proposal) (maxTxBytes : Int) (pre : List Tx) (rm : Finset Tx)
    (sp : Selection Tx State)
    (h : selectBidTxLoop l ctx proposal maxTxBytes pre rm = .ok sp) (hrej : sp.txs = []) :
    sp.ctx = ctx ∧
    (∀ post, selectBidTxLoop l ctx proposal maxTxBytes (pre ++ post) rm
      = selectBidTxLoop l ctx proposal maxTxBytes post sp.txsToRemove) ∧
    (∀ t txs c post, Selectable l ctx proposal maxTxBytes t txs c →
      ∃ size, selectBidTxLoop l ctx proposal maxTxBytes (pre ++ t :: post) rm
        = .ok ⟨txs, size, sp.txsToRemove, c⟩) ∧
    (∀ t bz c e post, l.TxEncoder t = .ok bz → l.sha256Hex bz ∉ proposal.Cache →
      (bz.length : Int) ≤ maxTxBytes → VerifyTx l ctx t = .ok (c, some e) →
      selectBidTxLoop l ctx proposal maxTxBytes (pre ++ t :: post) rm
        = selectBidTxLoop l ctx proposal maxTxBytes post (insert t sp.txsToRemove)) ∧
    (∀ next o, pre = l.Select ctx → rm = ∅ →
      PrepareLane l ctx proposal maxTxBytes next = .ok o → o.ctx = ctx) := by
  obtain ⟨h1, _, _, h4⟩ := selectBidTxLoop_append l ctx proposal maxTxBytes pre rm sp h hrej
  refine ⟨h1, h4, ?_, ?_, ?_⟩
  · intro t txs c post hsel
    obtain ⟨size, hs⟩ := selectBidTxLoop_select l ctx proposal maxTxBytes hsel post sp.txsToRemove
    exact ⟨size, by rw [h4, hs]⟩
  · intro t bz c e post henc hc hsz hv
    rw [h4, selectBidTxLoop_verify_error l ctx proposal maxTxBytes henc hc hsz hv]
  · intro next o hpre hrm ho
    subst hpre hrm
    unfold PrepareLane at ho
    rw [h] at ho
    cases hrem : l.RemoveTxsFromLane sp.txsToRemove with
    | some err =>
      simp [hrem] at ho
      rw [← ho]
      exact h1
    | none =>
      simp [hrem] at ho
      rw [← ho]
      exact h1

/-- C9 (witness): verifying `bid 9` drives its snapshot to 103 before it is
rejected; `bid 7`, whose ante check needs a state below 100, is then verified
on a snapshot of the live state 0 and selected, reaching 102. -/
theorem selectBidTxLoop_fresh_snapshot_witness :
    VerifyTx (demoLane [] none) 0 (.bid 9 [[1, 2], [1, 0]])
      = .ok (103, some (.failedToExecuteBundledTransaction "ante: refused")) ∧
    VerifyTx (demoLane [] none) 103 (.bid 7 [[1, 2]])
      = .ok (103, some (.failedToExecuteAnteHandler "ante: sequence")) ∧
    selectBidTxLoop (demoLane [] none) 0 (emptyProposal 10) 10
        ([.bid 9 [[1, 2], [1, 0]]] ++ [.bid 7 [[1, 2]]]) ∅
      = selectBidTxLoop (demoLane [] none) 0 (emptyProposal 10) 10 [.bid 7 [[1, 2]]]
        {.bid 9 [[1, 2], [1, 0]]} ∧
    selectBidTxLoop (demoLane [] none) 0 (emptyProposal 10) 10 [.bid 7 [[1, 2]]]
        {.bid 9 [[1, 2], [1, 0]]}
      = .ok ⟨[[0, 7, 1, 2], [1, 2]], 4, {.bid 9 [[1, 2], [1, 0]]}, 102⟩ :=
  ⟨by decide, by decide,
    (selectBidTxLoop_fresh_snapshot (demoLane [] none) 0 (emptyProposal 10) 10
      [.bid 9 [[1, 2], [1, 0]]] ∅ ⟨[], 0, {.bid 9 [[1, 2], [1, 0]]}, 0⟩
      (by decide) rfl).2.1 [.bid 7 [[1, 2]]],
    by decide⟩

/-! ## The Bid Verifier -/

/-- A bundle that passes is verified without error and reaches the snapshot it
passes to. -/
theorem verifyBundle_of_passes (l : TOBLane Tx State) {ctx c : State} {bundle : List Bytes}
    (h : BundlePasses l ctx bundle c) : verifyBundle l ctx bundle = (c, none) := by
  induction h with
  | nil ctx => rfl
  | cons hwrap hbid hante _ ih => simp [verifyBundle, hwrap, hbid, hante, ih]

/-- After members that pass, a member that violates a condition ends the
verification of the bundle with its error, whatever follows it. -/
theorem verifyBundle_of_fails (l : TOBLane Tx State) {ctx ck c : State} {pre : List Bytes}
    {raw : Bytes} {e : VerifyError} (post : List Bytes)
    (hpre : BundlePasses l ctx pre ck) (hraw : MemberFails l ck raw c e) :
    verifyBundle l ctx (pre ++ raw :: post) = (c, some e) := by
  induction hpre with
  | nil ctx =>
    rcases hraw with ⟨err, hw, rfl, rfl⟩ | ⟨tx, hw, hb, rfl, rfl⟩ | ⟨tx, err, hw, hb, ha, rfl⟩
    · simp [verifyBundle, hw]
    · cases hinfo : (l.GetAuctionBidInfo tx).1 with
      | none => exact absurd hinfo hb
      | some b => simp [verifyBundle, hw, hinfo]
    · simp [verifyBundle, hw, hb, ha]
  | cons hwrap hbid hante _ ih => simp [verifyBundle, hwrap, hbid, hante, ih hraw]

/-- Every bundle either passes, or splits at its first member that violates a
condition. -/
theorem verifyBundle_cases (l : TOBLane Tx State) (ctx : State) (bundle : List Bytes) :
    (∃ c, verifyBundle l ctx bundle = (c, none) ∧ BundlePasses l ctx bundle c) ∨
    (∃ pre raw post ck c e, bundle = pre ++ raw :: post ∧ BundlePasses l ctx pre ck ∧
      MemberFails l ck raw c e ∧ verifyBundle l ctx bundle = (c, some e)) := by
  induction bundle generalizing ctx with
  | nil => exact Or.inl ⟨ctx, rfl, BundlePasses.nil ctx⟩
  | cons raw rest ih =>
    cases hw : l.WrapBundleTransaction raw with
    | error err =>
      right
      exact ⟨[], raw, rest, ctx, ctx, _, rfl, BundlePasses.nil ctx, Or.inl ⟨err, hw, rfl, rfl⟩,
        by simp [verifyBundle, hw]⟩
    | ok tx =>
      cases hb : (l.GetAuctionBidInfo tx).1 with
      | some b =>
        right
        exact ⟨[], raw, rest, ctx, ctx, _, rfl, BundlePasses.nil ctx,
          Or.inr (Or.inl ⟨tx, hw, by simp [hb], rfl, rfl⟩), by simp [verifyBundle, hw, hb]⟩
      | none =>
        cases ha : verifyTx l ctx tx with
        | mk c1 r =>
          cases r with
          | some err =>
            right
            exact ⟨[], raw, rest, ctx, c1, _, rfl, BundlePasses.nil ctx,
              Or.inr (Or.inr ⟨tx, err, hw, hb, ha, rfl⟩), by simp [verifyBundle, hw, hb, ha]⟩
          | none =>
            rcases ih c1 with ⟨c, hv, hp⟩ | ⟨pre, raw', post, ck, c, e, hsplit, hp, hf, hv⟩
            · left
              exact ⟨c, by simp [verifyBundle, hw, hb, ha, hv], BundlePasses.cons hw hb ha hp⟩
            · right
              exact ⟨raw :: pre, raw', post, ck, c, e, by simp [hsplit],
                BundlePasses.cons hw hb ha hp, hf, by simp [verifyBundle, hw, hb, ha, hv]⟩

/-- C10: for a bid transaction whose bid information is extracted, `VerifyTx`
always returns, and it returns no error, leaving the snapshot `c`, exactly
when the precondition check of the bid succeeds on the given snapshot and the
bundle passes from the snapshot that check returns to `c`: every entry, in
order, decodes, carries no bid information, and is checked with success on the
snapshot returned by the check before it.  A failing check of the bid is the
result and no member is checked; a member that violates a condition after
members that pass is the result, with the snapshot it leaves and whatever
follows it; and every error `VerifyTx` returns is of one of these two
kinds. -/
theorem VerifyTx_succeeds_iff (l : TOBLane Tx State) (ctx : State) (bidTx : Tx)
    (bidInfo : BidInfo) (hinfo : l.GetAuctionBidInfo bidTx = (some bidInfo, none)) :
    (∃ r, VerifyTx l ctx bidTx = .ok r) ∧
    (∀ c, VerifyTx l ctx bidTx = .ok (c, none) ↔
      ∃ ctx1, verifyTx l ctx bidTx = (ctx1, none) ∧
        BundlePasses l ctx1 bidInfo.Transactions c) ∧
    (∀ c err, verifyTx l ctx bidTx = (c, some err) →
      VerifyTx l ctx bidTx = .ok (c, some (.failedToExecuteAnteHandler err))) ∧
    (∀ ctx1 pre raw post ck c e, verifyTx l ctx bidTx = (ctx1, none) →
      bidInfo.Transactions = pre ++ raw :: post → BundlePasses l ctx1 pre ck →
      MemberFails l ck raw c e → VerifyTx l ctx bidTx = .ok (c, some e)) ∧
    (∀ c e, VerifyTx l ctx bidTx = .ok (c, some e) →
      (∃ err, verifyTx l ctx bidTx = (c, some err) ∧ e = .failedToExecuteAnteHandler err) ∨
      ∃ ctx1 pre raw post ck, verifyTx l ctx bidTx = (ctx1, none) ∧
        bidInfo.Transactions = pre ++ raw :: post ∧ BundlePasses l ctx1 pre ck ∧
        MemberFails l ck raw c e) := by
  cases ha : verifyTx l ctx bidTx with
  | mk c1 r =>
    cases r with
    | some err =>
      have hv : VerifyTx l ctx bidTx = .ok (c1, some (.failedToExecuteAnteHandler err)) := by
        simp [VerifyTx, hinfo, ha]
      refine ⟨⟨_, hv⟩, ?_, ?_, ?_, ?_⟩
      · intro c
        rw [hv]
        simp
      · intro c err' h
        cases h
        exact hv
      · intro ctx1 pre raw post ck c e h
        cases h
      · intro c e h
        rw [hv] at h
        cases h
        exact Or.inl ⟨err, rfl, rfl⟩
    | none =>
      have hv : VerifyTx l ctx bidTx = .ok (verifyBundle l c1 bidInfo.Transactions) := by
        simp [VerifyTx, hinfo, ha]
      refine ⟨⟨_, hv⟩, ?_, ?_, ?_, ?_⟩
      · intro c
        rw [hv]
        constructor
        · intro h
          rcases verifyBundle_cases l c1 bidInfo.Transactions with
            ⟨c', hb, hp⟩ | ⟨_, _, _, _, _, _, _, _, _, hb⟩
          · rw [hb] at h
            cases h
            exact ⟨c1, rfl, hp⟩
          · rw [hb] at h
            cases h
        · rintro ⟨ctx1, h1, hp⟩
          cases h1
          rw [verifyBundle_of_passes l hp]
      · intro c err h
        cases h
      · intro ctx1 pre raw post ck c e h hsplit hp hf
        cases h
        rw [hv, hsplit, verifyBundle_of_fails l post hp hf]
      · intro c e h
        rw [hv] at h
        rcases verifyBundle_cases l c1 bidInfo.Transactions with
          ⟨c', hb, _⟩ | ⟨pre, raw, post, ck, c', e', hsplit, hp, hf, hb⟩
        · rw [hb] at h
          cases h
        · rw [hb] at h
          cases h
          exact Or.inr ⟨c1, pre, raw, post, ck, rfl, hsplit, hp, hf⟩

/-- C10 (witness): `VerifyTx` returns no error on `bid 7` with the bundle
`[1, 2]`, `[1, 3]` from the snapshot 0 and leaves 105, so the check of the bid
succeeds and the bundle passes to 105 from the snapshot that check returns. -/
theorem VerifyTx_succeeds_iff_witness :
    ∃ ctx1, verifyTx (demoLane [] none) 0 (.bid 7 [[1, 2], [1, 3]]) = (ctx1, none) ∧
      BundlePasses (demoLane [] none) ctx1 [[1, 2], [1, 3]] 105 :=
  ((VerifyTx_succeeds_iff (demoLane [] none) 0 (.bid 7 [[1, 2], [1, 3]]) ⟨[[1, 2], [1, 3]]⟩
    rfl).2.1 105).mp (by decide)

/-! ## The Proposal Validator -/

/-- C11 (counterexample): the first entry decodes to `bid 7`, a bid with a
bundle of two entries that passes `VerifyTx`, and the list has two entries
only; `ProcessLane` panics on the slice `proposalTxs[3:]`, so `next` is not
called and nothing is returned. -/
theorem consumesBidAndBundle_fails_on_short_list :
    demoDecode [0, 7, 1, 2, 1, 3] = .ok (.bid 7 [[1, 2], [1, 3]]) ∧
    VerifyTx (demoLane [] none) 0 (.bid 7 [[1, 2], [1, 3]]) = .ok (105, none) ∧
    ProcessLane (demoLane [] none) 0 [[0, 7, 1, 2, 1, 3], [1, 2]] acceptNext
      = .error .sliceBoundsOutOfRange ∧
    ¬ ConsumesBidAndBundle (demoLane [] none) 0 [[0, 7, 1, 2, 1, 3], [1, 2]] acceptNext := by
  have hrun : ProcessLane (demoLane [] none) 0 [[0, 7, 1, 2, 1, 3], [1, 2]] acceptNext
      = .error .sliceBoundsOutOfRange := by decide
  refine ⟨rfl, by decide, hrun, ?_⟩
  intro h
  obtain ⟨o, ho, _⟩ := h [0, 7, 1, 2, 1, 3] (.bid 7 [[1, 2], [1, 3]]) ⟨[[1, 2], [1, 3]]⟩ 105
    rfl rfl rfl rfl (by decide)
  rw [hrun] at ho
  cases ho

/-- C11 (as amended): when the first entry decodes to a bid transaction with
a bundle of `n` entries that passes `VerifyTx`, and the list has at least
`1 + n` entries, `ProcessLane` calls `next` exactly once, with the suffix of
the list that starts at index `n + 1`, and returns what `next` returns; the
suffix is the list without its first `1 + n` entries. -/
theorem processLane_consumes_bid_and_bundle (l : TOBLane Tx State) (ctx : State)
    (first : Bytes) (rest : List Bytes) (next : State → List Bytes → State × Option String)
    (tx : Tx) (bidInfo : BidInfo) (c : State)
    (hdec : l.TxDecoder first = .ok tx) (hmatch : l.Match tx = true)
    (hinfo : l.GetAuctionBidInfo tx = (some bidInfo, none))
    (hv : VerifyTx l ctx tx = .ok (c, none))
    (hlen : bidInfo.Transactions.length + 1 ≤ (first :: rest).length) :
    ∃ o, ProcessLane l ctx (first :: rest) next = .ok o ∧
      o.nextCalls = [(c, (first :: rest).drop (bidInfo.Transactions.length + 1))] ∧
      o.ctx = (next c ((first :: rest).drop (bidInfo.Transactions.length + 1))).1 ∧
      o.err = (next c ((first :: rest).drop (bidInfo.Transactions.length + 1))).2.map
        LaneError.fromNext ∧
      ((first :: rest).drop (bidInfo.Transactions.length + 1)).length
        + (bidInfo.Transactions.length + 1) = (first :: rest).length := by
  refine ⟨returnNext next c ((first :: rest).drop (bidInfo.Transactions.length + 1)),
    ?_, rfl, rfl, rfl, ?_⟩
  · have hlen' : bidInfo.Transactions.length ≤ rest.length := by simpa using hlen
    simp [ProcessLane, hdec, hmatch, hinfo, hv, hlen']
  · rw [List.length_drop]
    omega

/-- C11 (witness): on the list of `bid 7`, its two bundled transactions and
one more transaction, `next` is called once with the last entry alone. -/
theorem processLane_consumes_bid_and_bundle_witness :
    ∃ o, ProcessLane (demoLane [] none) 0 [[0, 7, 1, 2, 1, 3], [1, 2], [1, 3], [1, 4]]
        acceptNext = .ok o ∧
      o.nextCalls = [(105, [[1, 4]])] ∧ o.ctx = 105 ∧ o.err = none := by
  obtain ⟨o, ho, h1, h2, h3, _⟩ :=
    processLane_consumes_bid_and_bundle (demoLane [] none) 0 [0, 7, 1, 2, 1, 3]
      [[1, 2], [1, 3], [1, 4]] acceptNext (.bid 7 [[1, 2], [1, 3]]) ⟨[[1, 2], [1, 3]]⟩ 105
      rfl rfl rfl (by decide) (by decide)
  exact ⟨o, ho, h1, h2, h3⟩

/-- C12: when the first entry of a non-empty list decodes to a transaction
that does not match the bid predicate, `ProcessLane` calls `next` exactly
once, with the whole list and the state it was given, and returns what `next`
returns; the ante handler plays no part in the result. -/
theorem processLane_delegates_non_bid (l : TOBLane Tx State) (ctx : State)
    (first : Bytes) (rest : List Bytes) (next : State → List Bytes → State × Option String)
    (tx : Tx) (hdec : l.TxDecoder first = .ok tx) (hmatch : l.Match tx = false) :
    ProcessLane l ctx (first :: rest) next
      = .ok ⟨(next ctx (first :: rest)).1,
          (next ctx (first :: rest)).2.map LaneError.fromNext, [(ctx, first :: rest)]⟩ ∧
    ∀ anteHandler, ProcessLane { l with AnteHandler := anteHandler } ctx (first :: rest) next
      = ProcessLane l ctx (first :: rest) next := by
  refine ⟨?_, ?_⟩
  · simp [ProcessLane, hdec, hmatch, returnNext]
  · intro anteHandler
    simp [ProcessLane, hdec, hmatch]

/-- C12 (witness): the first entry decodes to the ordinary transaction 4; the
three entries and the state 0 go to `next` as they are. -/
theorem processLane_delegates_non_bid_witness :
    ProcessLane (demoLane [] none) 0 [[1, 4], [1, 5], [9, 9]] acceptNext
      = .ok ⟨0, none, [(0, [[1, 4], [1, 5], [9, 9]])]⟩ :=
  (processLane_delegates_non_bid (demoLane [] none) 0 [1, 4] [[1, 5], [9, 9]] acceptNext
    (.plain 4) rfl rfl).1

/-- C13: when the first entry decodes to a transaction that matches the bid
predicate, whose bid information is extracted without error, and on which
`VerifyTx` returns the error `e`, `ProcessLane` returns the error
"invalid bid tx" wrapping `e` and does not call `next`. -/
theorem processLane_rejects_invalid_bid (l : TOBLane Tx State) (ctx : State)
    (first : Bytes) (rest : List Bytes) (next : State → List Bytes → State × Option String)
    (tx : Tx) (c : State) (e : VerifyError)
    (hdec : l.TxDecoder first = .ok tx) (hmatch : l.Match tx = true)
    (hext : (l.GetAuctionBidInfo tx).2 = none)
    (hv : VerifyTx l ctx tx = .ok (c, some e)) :
    ∃ o, ProcessLane l ctx (first :: rest) next = .ok o ∧
      o.err = some (.invalidBidTx e) ∧ o.nextCalls = [] := by
  refine ⟨⟨c, some (.invalidBidTx e), []⟩, ?_, rfl, rfl⟩
  cases hi : l.GetAuctionBidInfo tx with
  | mk bidInfo err =>
    rw [hi] at hext
    simp at hext
    subst hext
    simp [ProcessLane, hdec, hmatch, hi, hv]

/-- C13 (witness): the second bundled transaction of `bid 9` fails its ante
check; `ProcessLane` returns "invalid bid tx" and `next` is not called. -/
theorem processLane_rejects_invalid_bid_witness :
    ∃ o, ProcessLane (demoLane [] none) 0 [[0, 9, 1, 2, 1, 0], [1, 2], [1, 0]] acceptNext
        = .ok o ∧
      o.err = some (.invalidBidTx (.failedToExecuteBundledTransaction "ante: refused")) ∧
      o.nextCalls = [] :=
  processLane_rejects_invalid_bid (demoLane [] none) 0 [0, 9, 1, 2, 1, 0] [[1, 2], [1, 0]]
    acceptNext (.bid 9 [[1, 2], [1, 0]]) 103
    (.failedToExecuteBundledTransaction "ante: refused") rfl rfl rfl (by decide)

/-! ## The Structural Checker -/

/-- In a list where an entry decodes to a bid, the loop of lines 162-171
returns the misplaced-bid error or the error of an entry that does not
decode, and the former when every entry before the bid decodes. -/
theorem misplacedBidLoop_of_bid (l : TOBLane Tx State) (pre : List Bytes) (bz : Bytes)
    (post : List Bytes) (bidTx : Tx)
    (hdec : l.TxDecoder bz = .ok bidTx) (hmatch : l.Match bidTx = true) :
    (∃ e, misplacedBidLoop l (pre ++ bz :: post) = some e ∧
      (e = .misplacedBidTransactions ∨ ∃ err, e = .failedToDecodeTx err)) ∧
    ((∀ x ∈ pre, ∃ tx, l.TxDecoder x = .ok tx) →
      misplacedBidLoop l (pre ++ bz :: post) = some .misplacedBidTransactions) := by
  induction pre with
  | nil =>
    have h : misplacedBidLoop l ([] ++ bz :: post) = some .misplacedBidTransactions := by
      simp [misplacedBidLoop, hdec, hmatch]
    exact ⟨⟨_, h, Or.inl rfl⟩, fun _ => h⟩
  | cons x pre ih =>
    cases hx : l.TxDecoder x with
    | error err =>
      refine ⟨⟨.failedToDecodeTx err, by simp [misplacedBidLoop, hx], Or.inr ⟨err, rfl⟩⟩, ?_⟩
      intro hall
      obtain ⟨tx, htx⟩ := hall x (List.mem_cons_self _ _)
      rw [hx] at htx
      cases htx
    | ok tx =>
      cases hm : l.Match tx with
      | true =>
        have h : misplacedBidLoop l (x :: pre ++ bz :: post)
            = some .misplacedBidTransactions := by
          simp [misplacedBidLoop, hx, hm]
        exact ⟨⟨_, h, Or.inl rfl⟩, fun _ => h⟩
      | false =>
        have h : misplacedBidLoop l (x :: pre ++ bz :: post)
            = misplacedBidLoop l (pre ++ bz :: post) := by
          simp [misplacedBidLoop, hx, hm]
        rw [h]
        exact ⟨ih.1, fun hall => ih.2 (fun y hy => hall y (List.mem_cons_of_mem _ hy))⟩

/-- The loop of lines 207-216 returns no error exactly when every entry
decodes to a transaction that does not match the bid predicate. -/
theorem moreBidsLoop_eq_none_iff (l : TOBLane Tx State) (txs : List Bytes) :
    moreBidsLoop l txs = none ↔
      ∀ bz ∈ txs, ∃ tx, l.TxDecoder bz = .ok tx ∧ l.Match tx = false := by
  induction txs with
  | nil => simp [moreBidsLoop]
  | cons x rest ih =>
    cases hx : l.TxDecoder x with
    | error err => simp [moreBidsLoop, hx]
    | ok tx =>
      cases hm : l.Match tx with
      | true => simp [moreBidsLoop, hx, hm]
      | false => simp [moreBidsLoop, hx, hm, ih]

/-- After entries that decode to transactions that are no bids, an entry that
decodes to a bid makes the loop of lines 207-216 return the multiple-bid
error. -/
theorem moreBidsLoop_of_bid (l : TOBLane Tx State) (pre : List Bytes) (bz : Bytes)
    (post : List Bytes) (bidTx : Tx)
    (hpre : ∀ x ∈ pre, ∃ tx, l.TxDecoder x = .ok tx ∧ l.Match tx = false)
    (hdec : l.TxDecoder bz = .ok bidTx) (hmatch : l.Match bidTx = true) :
    moreBidsLoop l (pre ++ bz :: post) = some .multipleBidTransactions := by
  induction pre with
  | nil => simp [moreBidsLoop, hdec, hmatch]
  | cons x pre ih =>
    obtain ⟨tx, hx, hm⟩ := hpre x (List.mem_cons_self _ _)
    simp [moreBidsLoop, hx, hm, ih (fun y hy => hpre y (List.mem_cons_of_mem _ hy))]

/-- Entries that agree with the stored bundle, position by position, pass the
loop of lines 186-204. -/
theorem bundleOrderLoop_of_matches (l : TOBLane Tx State) {region transactions : List Bytes}
    (h : List.Forall₂ (RegionEntryMatches l) region transactions) (more : List Bytes) :
    bundleOrderLoop l region (transactions ++ more) = .ok none := by
  induction h with
  | nil => simp [bundleOrderLoop]
  | cons hhead _ ih =>
    obtain ⟨tx, hw, hm, he⟩ := hhead
    simp [bundleOrderLoop, hw, hm, he, ih]

/-- When the loop of lines 186-204 returns no error, the slice is not longer
than the stored bundle and agrees with it position by position. -/
theorem bundleOrderLoop_ok_none (l : TOBLane Tx State) (region transactions : List Bytes)
    (h : bundleOrderLoop l region transactions = .ok none) :
    region.length ≤ transactions.length ∧
    List.Forall₂ (RegionEntryMatches l) region (transactions.take region.length) := by
  induction region generalizing transactions with
  | nil => simp
  | cons bz rest ih =>
    unfold bundleOrderLoop at h
    cases hw : l.WrapBundleTransaction bz with
    | error err => simp [hw] at h
    | ok tx =>
      cases hm : l.Match tx with
      | true => simp [hw, hm] at h
      | false =>
        cases he : l.TxEncoder tx with
        | error err => simp [hw, hm, he] at h
        | ok txBz =>
          cases transactions with
          | nil => simp [hw, hm, he] at h
          | cons transaction transactions' =>
            by_cases heq : txBz = transaction
            · simp [hw, hm, he, heq] at h
              obtain ⟨h1, h2⟩ := ih transactions' h
              refine ⟨by simpa using h1, ?_⟩
              rw [List.length_cons, List.take_succ_cons]
              exact List.Forall₂.cons ⟨tx, hw, hm, heq ▸ he⟩ h2
            · simp [hw, hm, he, heq] at h

/-- After entries that agree with the stored bundle, an entry that fails a
check ends the loop of lines 186-204 with its error, whatever follows. -/
theorem bundleOrderLoop_of_fails (l : TOBLane Tx State) {pre tpre : List Bytes}
    (hpre : List.Forall₂ (RegionEntryMatches l) pre tpre) (bz transaction : Bytes)
    (e : LaneError) (hbz : RegionEntryFails l bz transaction e) (post tpost : List Bytes) :
    bundleOrderLoop l (pre ++ bz :: post) (tpre ++ transaction :: tpost) = .ok (some e) := by
  induction hpre with
  | nil =>
    rcases hbz with ⟨err, hw, rfl⟩ | ⟨tx, hw, hm, rfl⟩ | ⟨tx, err, hw, hm, he, rfl⟩ |
      ⟨tx, txBz, hw, hm, he, hne, rfl⟩
    · simp [bundleOrderLoop, hw]
    · simp [bundleOrderLoop, hw, hm]
    · simp [bundleOrderLoop, hw, hm, he]
    · simp [bundleOrderLoop, hw, hm, he, hne]
  | cons hhead _ ih =>
    obtain ⟨tx, hw, hm, he⟩ := hhead
    simp [bundleOrderLoop, hw, hm, he, ih]

/-- The run of `ProcessLaneBasic` on a list whose first entry decodes to a
bid with bid information, once the length test of line 181 is passed. -/
theorem ProcessLaneBasic_bid (l : TOBLane Tx State) (first : Bytes) (rest : List Bytes)
    (tx : Tx) (bidInfo : BidInfo)
    (hdec : l.TxDecoder first = .ok tx) (hmatch : l.Match tx = true)
    (hinfo : l.GetAuctionBidInfo tx = (some bidInfo, none))
    (hlen : bidInfo.Transactions.length ≤ rest.length) :
    ProcessLaneBasic l (first :: rest)
      = match bundleOrderLoop l (rest.take bidInfo.Transactions.length)
            bidInfo.Transactions with
        | .error p => .error p
        | .ok (some err) => .ok (some err)
        | .ok none => .ok (moreBidsLoop l (rest.drop bidInfo.Transactions.length)) := by
  have hlt : ¬ rest.length + 1 < bidInfo.Transactions.length + 1 := by omega
  simp [ProcessLaneBasic, hdec, hmatch, hinfo, hlt]

/-- C14 (counterexample): the first entry decodes to the ordinary transaction
4, the third entry decodes to a bid, and the second entry does not decode;
`ProcessLaneBasic` returns the decoding error of the second entry, not the
misplaced-bid error. -/
theorem rejectsMisplacedBid_fails_after_undecodable :
    demoDecode [1, 4] = .ok (.plain 4) ∧
    (demoLane [] none).Match (.plain 4) = false ∧
    demoDecode [0, 7] = .ok (.bid 7 []) ∧
    (demoLane [] none).Match (.bid 7 []) = true ∧
    ProcessLaneBasic (demoLane [] none) [[1, 4], [9, 9], [0, 7]]
      = .ok (some (.failedToDecodeTx "cannot decode")) ∧
    ¬ RejectsMisplacedBid (demoLane [] none) [[1, 4], [9, 9], [0, 7]] := by
  refine ⟨rfl, rfl, rfl, rfl, by decide, ?_⟩
  intro h
  exact absurd (h [1, 4] (.plain 4) 2 [0, 7] (.bid 7 []) rfl rfl rfl (by decide) rfl rfl rfl)
    (by decide)

/-- C14 (as amended): when the first transaction is not a bid and a later
position holds an entry that decodes to a bid, `ProcessLaneBasic` rejects the
list, with the misplaced-bid error or with the error of an entry that does
not decode; when every entry between the first and that position decodes,
the error is the misplaced-bid error. -/
theorem processLaneBasic_rejects_misplaced_bid (l : TOBLane Tx State) (first : Bytes)
    (pre : List Bytes) (bz : Bytes) (post : List Bytes) (tx bidTx : Tx)
    (hfirst : l.TxDecoder first = .ok tx) (hnobid : l.Match tx = false)
    (hdec : l.TxDecoder bz = .ok bidTx) (hmatch : l.Match bidTx = true) :
    (∃ e, ProcessLaneBasic l (first :: (pre ++ bz :: post)) = .ok (some e) ∧
      (e = .misplacedBidTransactions ∨ ∃ err, e = .failedToDecodeTx err)) ∧
    ((∀ x ∈ pre, ∃ t, l.TxDecoder x = .ok t) →
      ProcessLaneBasic l (first :: (pre ++ bz :: post))
        = .ok (some .misplacedBidTransactions)) := by
  have hrun : ProcessLaneBasic l (first :: (pre ++ bz :: post))
      = .ok (misplacedBidLoop l (pre ++ bz :: post)) := by
    simp [ProcessLaneBasic, hfirst, hnobid]
  obtain ⟨⟨e, he, hkind⟩, hall⟩ := misplacedBidLoop_of_bid l pre bz post bidTx hdec hmatch
  refine ⟨⟨e, by rw [hrun, he], hkind⟩, ?_⟩
  intro hpre
  rw [hrun, hall hpre]

/-- C14 (witness): in the list of the ordinary transactions 4 and 5 followed
by a bid, the bid is reported as misplaced. -/
theorem processLaneBasic_rejects_misplaced_bid_witness :
    ProcessLaneBasic (demoLane [] none) [[1, 4], [1, 5], [0, 7], [1, 6]]
      = .ok (some .misplacedBidTransactions) :=
  (processLaneBasic_rejects_misplaced_bid (demoLane [] none) [1, 4] [[1, 5]] [0, 7] [[1, 6]]
    (.plain 4) (.bid 7 []) rfl rfl rfl rfl).2
    (by
      intro x hx
      have hx' : x = [1, 5] := by simpa using hx
      subst hx'
      exact ⟨.plain 5, rfl⟩)

/-- C15 (counterexample): a bid inside the bundle region (the entry `[0, 9]` at
position 2 of the first list, inside the bundle of `bid 7`) and a bid beyond
the bundle region (the entry `[0, 9]` at position 3 of the second list) are
rejected with one and the same error, "multiple bid transactions". -/
theorem nested_and_duplicate_bid_same_error :
    ProcessLaneBasic (demoLane [] none) [[0, 7, 1, 2, 0, 9], [1, 2], [0, 9], [1, 4]]
      = .ok (some .multipleBidTransactions) ∧
    ProcessLaneBasic (demoLane [] none) [[0, 7, 1, 2, 1, 3], [1, 2], [1, 3], [0, 9]]
      = .ok (some .multipleBidTransactions) ∧
    ProcessLaneBasic (demoLane [] none) [[0, 7, 1, 2, 0, 9], [1, 2], [0, 9], [1, 4]]
      = ProcessLaneBasic (demoLane [] none) [[0, 7, 1, 2, 1, 3], [1, 2], [1, 3], [0, 9]] := by
  refine ⟨by decide, by decide, by decide⟩

/-- C15 (as amended): in a list whose first transaction is a bid with bid
information and that is long enough for its bundle, an entry of the bundle
region that decodes to a transaction matching the bid predicate, the entries
of the region before it agreeing with the stored bundle, makes
`ProcessLaneBasic` return the error "multiple bid transactions"; a bid found
beyond the bundle region, after a region that agrees with the stored bundle
and entries that are no bids, is reported with the same error. -/
theorem processLaneBasic_nested_bid_same_error_as_duplicate (l : TOBLane Tx State)
    (first : Bytes) (rest : List Bytes) (tx : Tx) (bidInfo : BidInfo)
    (hdec : l.TxDecoder first = .ok tx) (hmatch : l.Match tx = true)
    (hinfo : l.GetAuctionBidInfo tx = (some bidInfo, none)) :
    (∀ pre nested post tpre transaction tpost nestedTx,
      rest = pre ++ nested :: post →
      bidInfo.Transactions = tpre ++ transaction :: tpost →
      bidInfo.Transactions.length ≤ rest.length →
      List.Forall₂ (RegionEntryMatches l) pre tpre →
      l.WrapBundleTransaction nested = .ok nestedTx → l.Match nestedTx = true →
      ProcessLaneBasic l (first :: rest) = .ok (some .multipleBidTransactions)) ∧
    (∀ pre dup post dupTx,
      bidInfo.Transactions.length ≤ rest.length →
      List.Forall₂ (RegionEntryMatches l) (rest.take bidInfo.Transactions.length)
        bidInfo.Transactions →
      rest.drop bidInfo.Transactions.length = pre ++ dup :: post →
      (∀ x ∈ pre, ∃ t, l.TxDecoder x = .ok t ∧ l.Match t = false) →
      l.TxDecoder dup = .ok dupTx → l.Match dupTx = true →
      ProcessLaneBasic l (first :: rest) = .ok (some .multipleBidTransactions)) := by
  refine ⟨?_, ?_⟩
  · intro pre nested post tpre transaction tpost nestedTx hrest hbundle hlen hpre hw hm
    rw [ProcessLaneBasic_bid l first rest tx bidInfo hdec hmatch hinfo hlen]
    have hlenpre : pre.length = tpre.length := hpre.length_eq
    have htake : rest.take bidInfo.Transactions.length
        = pre ++ nested :: post.take tpost.length := by
      rw [hrest, hbundle, List.take_append_eq_append_take]
      have h1 : (tpre ++ transaction :: tpost).length - pre.length = tpost.length + 1 := by
        simp [hlenpre]
      have h2 : pre.length ≤ (tpre ++ transaction :: tpost).length := by
        simp [hlenpre]
      rw [List.take_of_length_le h2, h1, List.take_succ_cons]
    rw [htake, hbundle,
      bundleOrderLoop_of_fails l hpre nested transaction .multipleBidTransactions
        (Or.inr (Or.inl ⟨nestedTx, hw, hm, rfl⟩))]
  · intro pre dup post dupTx hlen hregion hdrop hpre hd hm
    rw [ProcessLaneBasic_bid l first rest tx bidInfo hdec hmatch hinfo hlen]
    have h := bundleOrderLoop_of_matches l hregion []
    rw [List.append_nil] at h
    rw [h, hdrop, moreBidsLoop_of_bid l pre dup post dupTx hpre hd hm]

/-- C15 (witness): in the list of `bid 7`, its first bundled transaction, a
bid in the place of the second and one more transaction, the bid inside the
bundle region is reported with "multiple bid transactions". -/
theorem processLaneBasic_nested_bid_same_error_as_duplicate_witness :
    ProcessLaneBasic (demoLane [] none) [[0, 7, 1, 2, 0, 9], [1, 2], [0, 9], [1, 4]]
      = .ok (some .multipleBidTransactions) :=
  (processLaneBasic_nested_bid_same_error_as_duplicate (demoLane [] none) [0, 7, 1, 2, 0, 9]
    [[1, 2], [0, 9], [1, 4]] (.bid 7 [[1, 2], [0, 9]]) ⟨[[1, 2], [0, 9]]⟩ rfl rfl rfl).1
    [[1, 2]] [0, 9] [[1, 4]] [[1, 2]] [0, 9] [] (.bid 9 []) rfl rfl (by decide)
    (List.Forall₂.cons ⟨.plain 2, rfl, rfl, rfl⟩ List.Forall₂.nil) rfl rfl

/-- C16: when the first transaction is a bid with a bundle of `n` entries and
the list has fewer than `1 + n` entries, `ProcessLaneBasic` returns the error
"invalid number of transactions", expecting `1 + n`; the entries after the
first are not looked at: the result is the same whatever
`WrapBundleTransaction` does and whatever the entries are. -/
theorem processLaneBasic_rejects_truncated (l : TOBLane Tx State) (first : Bytes)
    (rest : List Bytes) (tx : Tx) (bidInfo : BidInfo)
    (hdec : l.TxDecoder first = .ok tx) (hmatch : l.Match tx = true)
    (hinfo : l.GetAuctionBidInfo tx = (some bidInfo, none))
    (hshort : (first :: rest).length < bidInfo.Transactions.length + 1) :
    ProcessLaneBasic l (first :: rest)
      = .ok (some (.invalidNumberOfTransactions (bidInfo.Transactions.length + 1)
          (first :: rest).length)) ∧
    (∀ wrap, ProcessLaneBasic { l with WrapBundleTransaction := wrap } (first :: rest)
      = ProcessLaneBasic l (first :: rest)) ∧
    (∀ rest', rest'.length = rest.length →
      ProcessLaneBasic l (first :: rest') = ProcessLaneBasic l (first :: rest)) := by
  have hlt : rest.length + 1 < bidInfo.Transactions.length + 1 := by simpa using hshort
  refine ⟨?_, ?_, ?_⟩
  · simp [ProcessLaneBasic, hdec, hmatch, hinfo, hlt]
  · intro wrap
    simp [ProcessLaneBasic, hdec, hmatch, hinfo, hlt]
  · intro rest' hlen
    have hlt' : rest'.length + 1 < bidInfo.Transactions.length + 1 := by omega
    simp [ProcessLaneBasic, hdec, hmatch, hinfo, hlt, hlt', hlen]

/-- C16 (witness): the list of `bid 7`, whose bundle has two entries, and its
first bundled transaction alone is rejected: three transactions expected, two
found. -/
theorem processLaneBasic_rejects_truncated_witness :
    ProcessLaneBasic (demoLane [] none) [[0, 7, 1, 2, 1, 3], [1, 2]]
      = .ok (some (.invalidNumberOfTransactions 3 2)) :=
  (processLaneBasic_rejects_truncated (demoLane [] none) [0, 7, 1, 2, 1, 3] [[1, 2]]
    (.bid 7 [[1, 2], [1, 3]]) ⟨[[1, 2], [1, 3]]⟩ rfl rfl rfl (by decide)).1

/-- Two lists related position by position are related at every index. -/
theorem forall₂_index {α β : Type} {R : α → β → Prop} {xs : List α} {ys : List β}
    (h : List.Forall₂ R xs ys) (i : Nat) (x : α) (hx : xs[i]? = some x) :
    ∃ y, ys[i]? = some y ∧ R x y := by
  induction h generalizing i with
  | nil => simp at hx
  | cons hhead _ ih =>
    cases i with
    | zero =>
      simp at hx
      subst hx
      exact ⟨_, by simp, hhead⟩
    | succ j =>
      simp at hx
      obtain ⟨y, hy, hr⟩ := ih j hx
      exact ⟨y, by simpa using hy, hr⟩

/-- Two lists of the same length related at every index are related position
by position. -/
theorem forall₂_of_index {α β : Type} {R : α → β → Prop} (xs : List α) (ys : List β)
    (hlen : xs.length = ys.length)
    (h : ∀ (i : Nat) (x : α) (y : β), xs[i]? = some x → ys[i]? = some y → R x y) :
    List.Forall₂ R xs ys := by
  induction xs generalizing ys with
  | nil =>
    cases ys with
    | nil => exact List.Forall₂.nil
    | cons y ys => simp at hlen
  | cons x xs ih =>
    cases ys with
    | nil => simp at hlen
    | cons y ys =>
      refine List.Forall₂.cons (h 0 x y (by simp) (by simp)) (ih ys (by simpa using hlen) ?_)
      intro i a b ha hb
      exact h (i + 1) a b (by simpa using ha) (by simpa using hb)

/-- The conditions of the specification on a list with first entry `first`,
said of the bundle region and of what follows it. -/
theorem structurallyValid_cons_iff (l : TOBLane Tx State) (first : Bytes) (rest : List Bytes)
    (b : List Bytes) :
    StructurallyValid l (first :: rest) b ↔
      b.length ≤ rest.length ∧
      List.Forall₂ (RegionEntryMatches l) (rest.take b.length) b ∧
      ∀ bz ∈ rest.drop b.length, ∃ tx, l.TxDecoder bz = .ok tx ∧ l.Match tx = false := by
  constructor
  · rintro ⟨hlen, hreg, hbeyond⟩
    have hlen' : b.length ≤ rest.length := by simpa using hlen
    refine ⟨hlen', ?_, ?_⟩
    · refine forall₂_of_index _ _ (by simp [hlen']) ?_
      intro j x y hx hy
      have hj : j < b.length := by
        have := (List.getElem?_eq_some.mp hy).1
        exact this
      obtain ⟨bz, transaction, h1, h2, h3⟩ := hreg (j + 1) (by omega) (by omega)
      rw [List.getElem?_take_of_lt hj] at hx
      simp at h1 h2
      rw [hx] at h1
      rw [hy] at h2
      cases h1
      cases h2
      exact h3
    · intro bz hbz
      obtain ⟨k, hk⟩ := List.mem_iff_getElem?.mp hbz
      rw [List.getElem?_drop] at hk
      exact hbeyond (b.length + k + 1) bz (by omega) (by simpa using hk)
  · rintro ⟨hlen, hreg, hbeyond⟩
    refine ⟨by simpa using hlen, ?_, ?_⟩
    · intro i hi1 hin
      obtain ⟨j, rfl⟩ : ∃ j, i = j + 1 := ⟨i - 1, by omega⟩
      have hj : j < b.length := by omega
      have hjr : j < rest.length := by omega
      have hx : (rest.take b.length)[j]? = some rest[j] := by
        rw [List.getElem?_take_of_lt hj]
        exact List.getElem?_eq_getElem hjr
      obtain ⟨y, hy, hr⟩ := forall₂_index hreg j _ hx
      refine ⟨rest[j], y, ?_, by simpa using hy, hr⟩
      simp [List.getElem?_eq_getElem hjr]
    · intro i bz hi hbz
      obtain ⟨j, rfl⟩ : ∃ j, i = j + 1 := ⟨i - 1, by omega⟩
      simp at hbz
      apply hbeyond bz
      apply List.mem_iff_getElem?.mpr
      refine ⟨j - b.length, ?_⟩
      rw [List.getElem?_drop]
      have : b.length + (j - b.length) = j := by omega
      rw [this]
      exact hbz

/-- C17: for a list whose first entry decodes to a bid transaction with the
stored bundle `b` of `n` entries, `ProcessLaneBasic` returns no error if and
only if the list has at least `1 + n` entries, each position `i` in `1..n`
decodes to a transaction that does not match the bid predicate and whose
encoding is byte for byte `b[i-1]`, and every entry beyond position `n`
decodes to a transaction that does not match the bid predicate. -/
theorem processLaneBasic_accepts_iff (l : TOBLane Tx State) (first : Bytes)
    (rest : List Bytes) (tx : Tx) (bidInfo : BidInfo)
    (hdec : l.TxDecoder first = .ok tx) (hmatch : l.Match tx = true)
    (hinfo : l.GetAuctionBidInfo tx = (some bidInfo, none)) :
    ProcessLaneBasic l (first :: rest) = .ok none ↔
      StructurallyValid l (first :: rest) bidInfo.Transactions := by
  rw [structurallyValid_cons_iff]
  constructor
  · intro h
    by_cases hlen : bidInfo.Transactions.length ≤ rest.length
    · rw [ProcessLaneBasic_bid l first rest tx bidInfo hdec hmatch hinfo hlen] at h
      cases hb : bundleOrderLoop l (rest.take bidInfo.Transactions.length)
          bidInfo.Transactions with
      | error p => simp [hb] at h
      | ok r =>
        cases r with
        | some e => simp [hb] at h
        | none =>
          simp [hb] at h
          obtain ⟨_, hf⟩ := bundleOrderLoop_ok_none l _ _ hb
          have hl : (rest.take bidInfo.Transactions.length).length
              = bidInfo.Transactions.length := by simp [hlen]
          rw [hl, List.take_length] at hf
          exact ⟨hlen, hf, (moreBidsLoop_eq_none_iff l _).mp h⟩
    · have hlt : rest.length + 1 < bidInfo.Transactions.length + 1 := by omega
      simp [ProcessLaneBasic, hdec, hmatch, hinfo, hlt] at h
  · rintro ⟨hlen, hreg, hbeyond⟩
    rw [ProcessLaneBasic_bid l first rest tx bidInfo hdec hmatch hinfo hlen]
    have h := bundleOrderLoop_of_matches l hreg []
    rw [List.append_nil] at h
    rw [h]
    simp only
    rw [(moreBidsLoop_eq_none_iff l _).mpr hbeyond]

/-- C17 (witness): the list of `bid 7`, its two bundled transactions in order
and one more ordinary transaction is accepted, so it meets the conditions of
the specification. -/
theorem processLaneBasic_accepts_iff_witness :
    StructurallyValid (demoLane [] none) [[0, 7, 1, 2, 1, 3], [1, 2], [1, 3], [1, 4]]
      [[1, 2], [1, 3]] :=
  (processLaneBasic_accepts_iff (demoLane [] none) [0, 7, 1, 2, 1, 3] [[1, 2], [1, 3], [1, 4]]
    (.bid 7 [[1, 2], [1, 3]]) ⟨[[1, 2], [1, 3]]⟩ rfl rfl rfl).mp (by decide)

/-! ## The Structural Checker and the Proposal Validator together -/

/-- C19: on every list `ProcessLaneBasic` accepts, `ProcessLane` returns
without a panic, and when the first entry decodes to a bid with a bundle of
`n` entries the list has at least `n + 1` entries, so the slice
`proposalTxs[n+1:]` is in range.  Conversely, on the list of `bid 7`, a bid
with two bundle entries that passes `VerifyTx`, followed by one entry only,
`ProcessLaneBasic` returns "invalid number of transactions" and `ProcessLane`
panics on the slice instead of returning an error. -/
theorem processLaneBasic_guards_processLane_slice :
    (∀ (Tx State : Type) (l : TOBLane Tx State) (ctx : State) (txs : List Bytes)
        (next : State → List Bytes → State × Option String),
      ProcessLaneBasic l txs = .ok none →
      txs ≠ [] ∧ (∃ o, ProcessLane l ctx txs next = .ok o) ∧
      ∀ first tx bidInfo, txs[0]? = some first → l.TxDecoder first = .ok tx →
        l.Match tx = true → l.GetAuctionBidInfo tx = (some bidInfo, none) →
        bidInfo.Transactions.length + 1 ≤ txs.length) ∧
    (demoDecode [0, 7, 1, 2, 1, 3] = .ok (.bid 7 [[1, 2], [1, 3]]) ∧
      VerifyTx (demoLane [] none) 0 (.bid 7 [[1, 2], [1, 3]]) = .ok (105, none) ∧
      ProcessLaneBasic (demoLane [] none) [[0, 7, 1, 2, 1, 3], [1, 3]]
        = .ok (some (.invalidNumberOfTransactions 3 2)) ∧
      ProcessLane (demoLane [] none) 0 [[0, 7, 1, 2, 1, 3], [1, 3]] acceptNext
        = .error .sliceBoundsOutOfRange) := by
  refine ⟨?_, rfl, by decide, by decide, by decide⟩
  intro Tx State l ctx txs next hacc
  cases txs with
  | nil => simp [ProcessLaneBasic] at hacc
  | cons first rest =>
    refine ⟨by simp, ?_⟩
    cases hdec : l.TxDecoder first with
    | error err => simp [ProcessLaneBasic, hdec] at hacc
    | ok tx =>
      cases hm : l.Match tx with
      | false =>
        refine ⟨⟨returnNext next ctx (first :: rest), by simp [ProcessLane, hdec, hm]⟩, ?_⟩
        intro first' tx' bidInfo hf hd hm'
        simp at hf
        subst hf
        rw [hdec] at hd
        cases hd
        rw [hm] at hm'
        cases hm'
      | true =>
        cases hi : l.GetAuctionBidInfo tx with
        | mk bi er =>
          cases er with
          | some err => simp [ProcessLaneBasic, hdec, hm, hi] at hacc
          | none =>
            cases bi with
            | none => simp [ProcessLaneBasic, hdec, hm, hi] at hacc
            | some bidInfo =>
              by_cases hlen : bidInfo.Transactions.length ≤ rest.length
              · refine ⟨?_, ?_⟩
                · cases hv : VerifyTx l ctx tx with
                  | error p =>
                    have := (VerifyTx_panic_bidInfo l ctx hv).1
                    rw [hi] at this
                    cases this
                  | ok r =>
                    obtain ⟨c, e⟩ := r
                    cases e with
                    | some e =>
                      exact ⟨⟨c, some (.invalidBidTx e), []⟩,
                        by simp [ProcessLane, hdec, hm, hi, hv]⟩
                    | none =>
                      exact ⟨returnNext next c (rest.drop bidInfo.Transactions.length),
                        by simp [ProcessLane, hdec, hm, hi, hv, hlen]⟩
                · intro first' tx' bidInfo' hf hd _ hi'
                  simp at hf
                  subst hf
                  rw [hdec] at hd
                  cases hd
                  rw [hi] at hi'
                  cases hi'
                  simpa using hlen
              · have hlt : rest.length + 1 < bidInfo.Transactions.length + 1 := by omega
                simp [ProcessLaneBasic, hdec, hm, hi, hlt] at hacc

/-- C19 (witness): the list of `bid 7`, its two bundled transactions and one
more transaction is accepted by `ProcessLaneBasic`, and `ProcessLane` returns
on it. -/
theorem processLaneBasic_guards_processLane_slice_witness :
    ∃ o, ProcessLane (demoLane [] none) 0 [[0, 7, 1, 2, 1, 3], [1, 2], [1, 3], [1, 4]]
      acceptNext = .ok o :=
  (processLaneBasic_guards_processLane_slice.1 DemoTx Nat (demoLane [] none) 0
    [[0, 7, 1, 2, 1, 3], [1, 2], [1, 3], [1, 4]] acceptNext (by decide)).2.1

/-! ## Bundles from selection to validation -/

/-- Lists related position by position by equality, read from right to left,
are equal. -/
theorem eq_of_forall₂_eq {xs ys : List Bytes}
    (h : List.Forall₂ (fun raw b => b = raw) xs ys) : ys = xs := by
  induction h with
  | nil => rfl
  | cons hhead _ ih => rw [hhead, ih]

/-- A relation that holds position by position can be changed to another one
that follows from it on the members of the first list. -/
theorem forall₂_imp_mem {α β : Type} {R S : α → β → Prop} {xs : List α} {ys : List β}
    (h : List.Forall₂ R xs ys) (himp : ∀ x ∈ xs, ∀ y, R x y → S x y) :
    List.Forall₂ S xs ys := by
  induction h with
  | nil => exact List.Forall₂.nil
  | cons hhead _ ih =>
    exact List.Forall₂.cons (himp _ (List.mem_cons_self _ _) _ hhead)
      (ih (fun x hx y hr => himp x (List.mem_cons_of_mem _ hx) y hr))

/-- C18 (counterexample): the bundle entry `[2, 5]` of `bid 7` decodes, with
the decoder `aliasDecode`, to the ordinary transaction 5, which encodes to
`[1, 5]`; the candidate is accepted and the bytes placed for its bundle member
are `[1, 5]`, not the stored entry `[2, 5]`. -/
theorem bundleRoundTrips_fails_with_alias_decoder :
    selectBidTxLoop (aliasLane []) 0 (emptyProposal 10) 10 [.bid 7 [[2, 5]]] ∅
      = .ok ⟨[[0, 7, 2, 5], [1, 5]], 4, ∅, 105⟩ ∧
    (aliasLane []).GetAuctionBidInfo (.bid 7 [[2, 5]]) = (some ⟨[[2, 5]]⟩, none) ∧
    ¬ BundleRoundTrips (aliasLane []) 0 (emptyProposal 10) 10 [.bid 7 [[2, 5]]] := by
  have hrun : selectBidTxLoop (aliasLane []) 0 (emptyProposal 10) 10 [.bid 7 [[2, 5]]] ∅
      = .ok ⟨[[0, 7, 2, 5], [1, 5]], 4, ∅, 105⟩ := by decide
  refine ⟨hrun, rfl, ?_⟩
  intro h
  exact absurd (h _ hrun (.bid 7 [[2, 5]]) (by simp) [0, 7, 2, 5] ⟨[[2, 5]]⟩ rfl rfl rfl)
    (by decide)

/-- C18 (as amended): for the candidate the loop accepts, the bytes placed
after the bid are, entry by entry and in the order of the bundle, the
encoding of the transaction each stored bundle entry decodes to; when
encoding what a stored entry decodes to gives the entry back, for every entry
of the bundle, they are byte for byte the stored entries, at every index. -/
theorem selectBidTxLoop_bundle_round_trips [DecidableEq Tx] (l : TOBLane Tx State)
    (ctx : State) (proposal : Proposal) (maxTxBytes : Int) (cands : List Tx)
    (rm : Finset Tx) (s : Selection Tx State)
    (h : selectBidTxLoop l ctx proposal maxTxBytes cands rm = .ok s) (hsel : s.txs ≠ []) :
    ∃ pre t post bidTxBz bidInfo,
      cands = pre ++ t :: post ∧ l.TxEncoder t = .ok bidTxBz ∧
      l.GetAuctionBidInfo t = (some bidInfo, none) ∧
      s.txs.head? = some bidTxBz ∧
      List.Forall₂ (fun raw b => ∃ sdkTx, l.WrapBundleTransaction raw = .ok sdkTx ∧
        l.TxEncoder sdkTx = .ok b) bidInfo.Transactions s.txs.tail ∧
      ((∀ raw ∈ bidInfo.Transactions, ∀ sdkTx b, l.WrapBundleTransaction raw = .ok sdkTx →
          l.TxEncoder sdkTx = .ok b → b = raw) →
        s.txs.tail = bidInfo.Transactions ∧
        ∀ i, s.txs[i + 1]? = bidInfo.Transactions[i]?) := by
  rcases selectBidTxLoop_post l ctx proposal maxTxBytes cands rm with
    ⟨s', h', h1, _⟩ | ⟨s', pre, t, post, bz, h', hc, _, hsel', _, _, _⟩ | ⟨_, _, _, h', _⟩
  · rw [h] at h'
    cases h'
    exact absurd h1 hsel
  · rw [h] at h'
    cases h'
    obtain ⟨bidTxBz, bidInfo, bs, henc, _, _, _, hinfo, hf, htxs⟩ := hsel'
    have hf' : List.Forall₂ (fun raw b => ∃ sdkTx, l.WrapBundleTransaction raw = .ok sdkTx ∧
        l.TxEncoder sdkTx = .ok b) bidInfo.Transactions bs :=
      hf.imp (fun _ _ ⟨sdkTx, hw, he, _⟩ => ⟨sdkTx, hw, he⟩)
    refine ⟨pre, t, post, bidTxBz, bidInfo, hc, henc, hinfo, by simp [htxs],
      by simpa [htxs] using hf', ?_⟩
    intro hrt
    have hrel : List.Forall₂ (fun raw b => b = raw) bidInfo.Transactions bs :=
      forall₂_imp_mem hf' (fun raw hraw b ⟨sdkTx, hw, he⟩ => hrt raw hraw sdkTx b hw he)
    have heq : bs = bidInfo.Transactions := eq_of_forall₂_eq hrel
    refine ⟨by simp [htxs, heq], ?_⟩
    intro i
    simp [htxs, heq]
  · rw [h] at h'
    cases h'

/-- C18 (witness): for the accepted `bid 7`, whose bundle entries `[1, 2]` and
`[1, 3]` are given back by encoding what they decode to, the bytes placed
after the bid are the stored entries. -/
theorem selectBidTxLoop_bundle_round_trips_witness :
    ∃ pre t post bidTxBz bidInfo,
      [DemoTx.bid 9 [[1, 0]], .bid 7 [[1, 2], [1, 3]]] = pre ++ t :: post ∧
      demoEncode t = .ok bidTxBz ∧
      demoBidInfo t = (some bidInfo, none) ∧
      ([[0, 7, 1, 2, 1, 3], [1, 2], [1, 3]] : List Bytes).head? = some bidTxBz ∧
      ([[0, 7, 1, 2, 1, 3], [1, 2], [1, 3]] : List Bytes).tail = bidInfo.Transactions := by
  obtain ⟨pre, t, post, bidTxBz, bidInfo, h1, h2, h3, h4, h5, h6⟩ :=
    selectBidTxLoop_bundle_round_trips (demoLane [] none) 0 (emptyProposal 10) 10
      [.bid 9 [[1, 0]], .bid 7 [[1, 2], [1, 3]]] ∅
      ⟨[[0, 7, 1, 2, 1, 3], [1, 2], [1, 3]], 6, {.bid 9 [[1, 0]]}, 105⟩
      (by decide) (by decide)
  have ht : t ∈ [DemoTx.bid 9 [[1, 0]], .bid 7 [[1, 2], [1, 3]]] := by
    rw [h1]
    simp
  have ht' : t = .bid 9 [[1, 0]] ∨ t = .bid 7 [[1, 2], [1, 3]] := by simpa using ht
  rcases ht' with rfl | rfl
  · have h2' : demoEncode (.bid 9 [[1, 0]]) = .ok bidTxBz := h2
    simp [demoEncode] at h2'
    subst h2'
    simp at h4
  · have h3' : demoBidInfo (.bid 7 [[1, 2], [1, 3]]) = (some bidInfo, none) := h3
    simp [demoBidInfo] at h3'
    subst h3'
    refine ⟨pre, _, post, bidTxBz, _, h1, h2, rfl, h4, (h6 ?_).1⟩
    intro raw hraw sdkTx b hw he
    have hraw' : raw = [1, 2] ∨ raw = [1, 3] := by simpa using hraw
    rcases hraw' with rfl | rfl
    · have hw' : demoDecode [1, 2] = .ok sdkTx := hw
      simp [demoDecode] at hw'
      subst hw'
      have he' : demoEncode (.plain 2) = .ok b := he
      simp [demoEncode] at he'
      exact he'.symm
    · have hw' : demoDecode [1, 3] = .ok sdkTx := hw
      simp [demoDecode] at hw'
      subst hw'
      have he' : demoEncode (.plain 3) = .ok b := he
      simp [demoEncode] at he'
      exact he'.symm

/-- Every member of a bundle that passes decodes to a transaction without bid
information. -/
theorem BundlePasses.no_bid_info {l : TOBLane Tx State} {ctx c : State} {bundle : List Bytes}
    (h : BundlePasses l ctx bundle c) :
    ∀ raw ∈ bundle, ∀ sdkTx, l.WrapBundleTransaction raw = .ok sdkTx →
      (l.GetAuctionBidInfo sdkTx).1 = none := by
  induction h with
  | nil ctx => simp
  | cons hwrap hbid _ _ ih =>
    intro raw hraw sdkTx hw
    rcases List.mem_cons.mp hraw with rfl | hraw
    · rw [hwrap] at hw
      cases hw
      exact hbid
    · exact ih raw hraw sdkTx hw

/-- When `VerifyTx` returns no error on a bid with bid information, its bundle
passes to the snapshot `VerifyTx` leaves. -/
theorem VerifyTx_ok_bundle_passes (l : TOBLane Tx State) (ctx : State) {tx : Tx} {c : State}
    {bidInfo : BidInfo} (hinfo : l.GetAuctionBidInfo tx = (some bidInfo, none))
    (hv : VerifyTx l ctx tx = .ok (c, none)) :
    ∃ c1, BundlePasses l c1 bidInfo.Transactions c := by
  cases ha : verifyTx l ctx tx with
  | mk c1 r =>
    cases r with
    | some err => simp [VerifyTx, hinfo, ha] at hv
    | none =>
      simp [VerifyTx, hinfo, ha] at hv
      rcases verifyBundle_cases l c1 bidInfo.Transactions with
        ⟨c', hb, hp⟩ | ⟨_, _, _, _, _, _, _, _, _, hb⟩
      · rw [hb] at hv
        cases hv
        exact ⟨c1, hp⟩
      · rw [hb] at hv
        cases hv

/-- C20: assume that decoding the encoding of a candidate gives the candidate
back, that encoding what a bundle entry of a candidate decodes to gives the
entry back, and that the bid predicate holds exactly of the transactions
whose bid information is extracted without error.  Then the list the loop of
`PrepareLane` selects for the candidate it accepts, the bid bytes followed by
the bundle bytes, is accepted by `ProcessLaneBasic`. -/
theorem prepareLane_selection_accepted_by_processLaneBasic [DecidableEq Tx]
    (l : TOBLane Tx State) (ctx : State) (proposal : Proposal) (maxTxBytes : Int)
    (cands : List Tx) (rm : Finset Tx) (s : Selection Tx State)
    (hdecode : ∀ t ∈ cands, ∀ bz, l.TxEncoder t = .ok bz → l.TxDecoder bz = .ok t)
    (hroundtrip : ∀ t ∈ cands, ∀ bidInfo, l.GetAuctionBidInfo t = (some bidInfo, none) →
      ∀ raw ∈ bidInfo.Transactions, ∀ sdkTx b, l.WrapBundleTransaction raw = .ok sdkTx →
        l.TxEncoder sdkTx = .ok b → b = raw)
    (hpredicate : ∀ tx, l.Match tx = true ↔
      ∃ bidInfo, l.GetAuctionBidInfo tx = (some bidInfo, none))
    (h : selectBidTxLoop l ctx proposal maxTxBytes cands rm = .ok s) (hsel : s.txs ≠ []) :
    ProcessLaneBasic l s.txs = .ok none := by
  rcases selectBidTxLoop_post l ctx proposal maxTxBytes cands rm with
    ⟨s', h', h1, _⟩ | ⟨s', pre, t, post, bz, h', hc, _, hsel', _, _, _⟩ | ⟨_, _, _, h', _⟩
  · rw [h] at h'
    cases h'
    exact absurd h1 hsel
  · rw [h] at h'
    cases h'
    obtain ⟨bidTxBz, bidInfo, bs, henc, _, _, hv, hinfo, hf, htxs⟩ := hsel'
    have ht : t ∈ cands := by
      rw [hc]
      simp
    obtain ⟨c1, hpass⟩ := VerifyTx_ok_bundle_passes l ctx hinfo hv
    have hnobid := hpass.no_bid_info
    have hrel : List.Forall₂ (fun raw b => b = raw) bidInfo.Transactions bs :=
      forall₂_imp_mem hf (fun raw hraw b ⟨sdkTx, hw, he, _⟩ =>
        hroundtrip t ht bidInfo hinfo raw hraw sdkTx b hw he)
    have heq : bs = bidInfo.Transactions := eq_of_forall₂_eq hrel
    subst heq
    have hregion : List.Forall₂ (RegionEntryMatches l) bidInfo.Transactions
        bidInfo.Transactions := by
      refine forall₂_of_index _ _ rfl ?_
      intro i x y hx hy
      rw [hx] at hy
      cases hy
      have hmem : x ∈ bidInfo.Transactions := List.mem_iff_getElem?.mpr ⟨i, hx⟩
      obtain ⟨b, hb, sdkTx, hw, he, _⟩ := forall₂_index hf i x hx
      rw [hx] at hb
      cases hb
      refine ⟨sdkTx, hw, ?_, he⟩
      cases hm : l.Match sdkTx with
      | false => rfl
      | true =>
        obtain ⟨bi, hbi⟩ := (hpredicate sdkTx).mp hm
        have := hnobid x hmem sdkTx hw
        rw [hbi] at this
        cases this
    rw [htxs, ProcessLaneBasic_bid l bidTxBz bidInfo.Transactions t bidInfo
      (hdecode t ht bidTxBz henc) ((hpredicate t).mpr ⟨bidInfo, hinfo⟩) hinfo (le_refl _)]
    have hloop := bundleOrderLoop_of_matches l hregion []
    rw [List.append_nil] at hloop
    simp [hloop, moreBidsLoop]
  · rw [h] at h'
    cases h'

/-- C20 (witness): the concrete codec gives the candidates `bid 9` and `bid 7`
and their bundle entries back, its bid predicate holds exactly of the bids,
and the list selected for `bid 7` is accepted by `ProcessLaneBasic`. -/
theorem prepareLane_selection_accepted_by_processLaneBasic_witness :
    ProcessLaneBasic (demoLane [] none) [[0, 7, 1, 2, 1, 3], [1, 2], [1, 3]] = .ok none := by
  refine prepareLane_selection_accepted_by_processLaneBasic (demoLane [] none) 0
    (emptyProposal 10) 10 [.bid 9 [[1, 0]], .bid 7 [[1, 2], [1, 3]]] ∅
    ⟨[[0, 7, 1, 2, 1, 3], [1, 2], [1, 3]], 6, {.bid 9 [[1, 0]]}, 105⟩ ?_ ?_ ?_
    (by decide) (by decide)
  · intro t ht bz hbz
    have ht' : t = .bid 9 [[1, 0]] ∨ t = .bid 7 [[1, 2], [1, 3]] := by simpa using ht
    rcases ht' with rfl | rfl
    · have hbz' : demoEncode (.bid 9 [[1, 0]]) = .ok bz := hbz
      simp [demoEncode] at hbz'
      subst hbz'
      rfl
    · have hbz' : demoEncode (.bid 7 [[1, 2], [1, 3]]) = .ok bz := hbz
      simp [demoEncode] at hbz'
      subst hbz'
      rfl
  · intro t ht bidInfo hinfo raw hraw sdkTx b hw he
    have hw' : demoDecode raw = .ok sdkTx := hw
    have he' : demoEncode sdkTx = .ok b := he
    have ht' : t = .bid 9 [[1, 0]] ∨ t = .bid 7 [[1, 2], [1, 3]] := by simpa using ht
    have hraw' : raw = [1, 0] ∨ raw = [1, 2] ∨ raw = [1, 3] := by
      rcases ht' with rfl | rfl
      · have hinfo' : demoBidInfo (.bid 9 [[1, 0]]) = (some bidInfo, none) := hinfo
        simp [demoBidInfo] at hinfo'
        subst hinfo'
        left
        simpa using hraw
      · have hinfo' : demoBidInfo (.bid 7 [[1, 2], [1, 3]]) = (some bidInfo, none) := hinfo
        simp [demoBidInfo] at hinfo'
        subst hinfo'
        right
        simpa using hraw
    rcases hraw' with rfl | rfl | rfl
    all_goals
      simp [demoDecode] at hw'
      subst hw'
      simp [demoEncode] at he'
      exact he'.symm
  · intro tx
    cases tx with
    | plain n => simp [demoLane, demoBidInfo]
    | bid bidder bundle => simp [demoLane, demoBidInfo]
    | opaqueTx => simp [demoLane, demoBidInfo]

end Auction
